import Mathlib

/-!
Verification development for the `tav` repository: a task-tick engine over a
character ("tav") with skills, tasks, a slot-based inventory, a boolean
requirement DSL and a completion-effect aggregator.

The definitions below are shallow embeddings of the TypeScript sources:
  * `Requirement` / `evaluateRequirements`   from `src/db/schema.ts`
    (the requirement-DSL interpreter);
  * `buildRequirementContext`, `mergeRequirementContexts`, `canExecuteTask`
    from `src/db/tav.ts`;
  * `tickTask` and its helpers                from `src/lib/task.ts`
    (the single-pass scheduling revision);
  * `applyInventoryDelta` / `moveInventoryItem` from `src/lib/inventory.ts`
    (the revision whose `applyInventoryDelta` default is `{ strict: true }`
    and which preserves slot indices), plus `applyInventoryDeltaReindex`,
    the sibling revision whose options default is `{}` and which compacts
    slot indices after every delta;
  * `mergeCompletionEffects` / `coerceEffect` from `src/lib/task.ts`
    (loop-engine revision).

JavaScript `Record<string, T>` values are modelled as association lists or as
functions `String → Option T` (lookup semantics); numbers that the code
truncates with `Math.trunc` are modelled as `Int`; thrown exceptions are
modelled with `Except String`.  Timestamps (`Date`) are integers (epoch ms).
-/

namespace Tav

/-- Lookup of a string key in an association list (JS `record[key]`). -/
def lookupRec {α : Type} (l : List (String × α)) (k : String) : Option α :=
  (l.find? (fun p => p.1 == k)).map (fun p => p.2)

/-! ### Requirement DSL (`src/db/schema.ts`) -/

/-- The requirement tree, one constructor per `op` of the TypeScript
discriminated union `Requirement`. -/
inductive Requirement where
  | ability_min (ability : String) (value : Int)
  | tav_level_min (level : Int)
  | skill_level_min (skillId : String) (level : Int)
  | item_required (itemId : String) (quantity : Int)
  | flag_present (flagId : String)
  | custom (name : String)
  | and (requirements : List Requirement)
  | or (requirements : List Requirement)
  | not (requirement : Requirement)
deriving Repr

/-- The evaluation context `RequirementEvaluationContext`.  Optional record
fields become `Option` of a lookup function.  The TypeScript `customChecks`
values may be booleans or predicates taking the context itself; a predicate is
specialised here to the boolean it returns on the (read-only) context, and
`resolveCustom`'s context argument is dropped for the same reason, so both are
`String → Option Bool`. -/
structure RequirementEvaluationContext where
  abilities : Option (String → Option Int)
  tavLevel : Option Int
  skillLevels : Option (String → Option Int)
  inventory : Option (String → Option Int)
  flags : Option (List String)
  customChecks : Option (String → Option Bool)
  resolveCustom : Option (String → Option Bool)

/-- `readInventory` of `src/db/schema.ts`: missing inventory or item means 0. -/
def readInventory (inv : Option (String → Option Int)) (itemId : String) : Int :=
  match inv with
  | none => 0
  | some f => (f itemId).getD 0

/-- `hasInIterable` of `src/db/schema.ts`: membership in the flag iterable. -/
def hasInIterable (flags : Option (List String)) (value : String) : Bool :=
  match flags with
  | none => false
  | some l => l.contains value

mutual

/-- One node of `evaluateRequirements` (`src/db/schema.ts`): the body of the
`switch (requirement.op)`.  `and` re-enters the list evaluator (`.every`),
`or` maps each child through a singleton list (`.some` over
`evaluateRequirements([inner])`), `not` negates a singleton evaluation. -/
def evaluateRequirement (ctx : RequirementEvaluationContext) :
    Requirement → Bool
  | .ability_min ability value =>
      decide (value ≤ ((ctx.abilities.bind (fun f => f ability)).getD 0))
  | .skill_level_min skillId level =>
      decide (level ≤ ((ctx.skillLevels.bind (fun f => f skillId)).getD 0))
  | .tav_level_min level => decide (level ≤ (ctx.tavLevel.getD 1))
  | .item_required itemId quantity =>
      decide (quantity ≤ readInventory ctx.inventory itemId)
  | .flag_present flagId => hasInIterable ctx.flags flagId
  | .custom name =>
      match ctx.customChecks.bind (fun f => f name) with
      | some b => b
      | none => (ctx.resolveCustom.bind (fun f => f name)).getD false
  | .and rs => evaluateRequirementsList ctx rs
  | .or rs => evaluateRequirementsAny ctx rs
  | .not r => !(evaluateRequirement ctx r)

/-- `requirements.every(...)` of `evaluateRequirements`; the early
`requirements.length === 0` return is the `[]` case. -/
def evaluateRequirementsList (ctx : RequirementEvaluationContext) :
    List Requirement → Bool
  | [] => true
  | r :: rs => evaluateRequirement ctx r && evaluateRequirementsList ctx rs

/-- `requirement.requirements.some(...)` of the `or` branch. -/
def evaluateRequirementsAny (ctx : RequirementEvaluationContext) :
    List Requirement → Bool
  | [] => false
  | r :: rs => evaluateRequirement ctx r || evaluateRequirementsAny ctx rs

end

/-- `evaluateRequirements(requirements, context)` of `src/db/schema.ts`. -/
def evaluateRequirements (requirements : List Requirement)
    (ctx : RequirementEvaluationContext) : Bool :=
  evaluateRequirementsList ctx requirements

/-! ### Definition registry (`src/config.ts`, shapes from `src/db/schema.ts`) -/

/-- A parsed skill definition (`skillDefinitionSchema`).  Fields not consulted
by the embedded operations (name, description) are omitted. -/
structure SkillDefinition where
  id : String
  priority : Int
  duration : Int
  targetIds : List String
  addRequirements : List Requirement
  executeRequirements : List Requirement

/-- A parsed target definition (`targetDefinitionSchema`). -/
structure TargetDefinition where
  id : String
  skills : List String
  addRequirements : List Requirement
  executeRequirements : List Requirement

/-- `TASK_TARGETLESS_KEY` of `src/db/schema.ts`. -/
def TASK_TARGETLESS_KEY : String := "null"

/-! ### Database rows (`src/db/schema.ts` tables) -/

/-- `task_status` enum. -/
inductive TaskStatus where
  | pending
  | executing
  | failed
deriving Repr, DecidableEq

/-- A row of the `task` table. -/
structure TaskRow where
  tavId : Int
  skillId : String
  targetId : String
  status : TaskStatus
  createdAt : Int
  startedAt : Option Int
  endedAt : Option Int
deriving Repr, DecidableEq

/-- A row of the `skill` table (per-tav skill progress). -/
structure SkillRow where
  id : String
  xp : Int
  xpLevel : Int
deriving Repr, DecidableEq

/-- A row of the `inventory` table for one tav (slot, item, quantity). -/
structure InventoryRow where
  slot : Nat
  itemId : String
  qty : Int
deriving Repr, DecidableEq

/-- The database state for a single tav: its `tav` row together with its
related `skill`, `inventory` and `task` rows.  All tick queries in
`src/lib/task.ts` and `src/db/tav.ts` are scoped to one `tavId`, so one
structure per tav is a faithful model of the per-actor snapshot. -/
structure TavState where
  abilityScores : String → Option Int
  flags : List String
  xp : Int
  updatedAt : Int
  skills : List SkillRow
  inventory : List InventoryRow
  tasks : List TaskRow

/-! ### Requirement context construction (`src/db/tav.ts`) -/

/-- Inventory totals record built by `buildRequirementContext`: a key is
present exactly when some inventory row has that item, and its value is the
sum of `qty` over the item's rows. -/
def inventoryTotalsFun (rows : List InventoryRow) : String → Option Int :=
  fun k =>
    if rows.any (fun r => r.itemId == k) then
      some (rows.foldl (fun a r => if r.itemId == k then a + r.qty else a) 0)
    else none

/-- `buildRequirementContext` of `src/db/tav.ts`: abilities from the tav row,
flags as a set, `skillLevels[id] = xpLevel` per skill row (the record loop's
last assignment wins; skill ids are unique per tav by primary key, and
`find?` takes the first match), inventory totals summed per item.  The
returned context has no `tavLevel`, `customChecks` or `resolveCustom`. -/
def buildRequirementContext (s : TavState) : RequirementEvaluationContext :=
  { abilities := some s.abilityScores
    tavLevel := none
    skillLevels := some (fun id => (s.skills.find? (fun r => r.id == id)).map (fun r => r.xpLevel))
    inventory := some (inventoryTotalsFun s.inventory)
    flags := some s.flags
    customChecks := none
    resolveCustom := none }

/-- `mergeInventory` of `src/db/tav.ts`: additive merge; for a key present in
the override the result is base value (or 0) plus override value, otherwise
the base binding.  The `Map`/`Record` branches of the source collapse to the
same pointwise behaviour. -/
def mergeInventory (base override : Option (String → Option Int)) :
    Option (String → Option Int) :=
  match base, override with
  | none, o => o
  | b, none => b
  | some bf, some of =>
      some (fun k =>
        match of k with
        | some v => some ((bf k).getD 0 + v)
        | none => bf k)

/-- `mergeIterables` of `src/db/tav.ts`: union of the two flag sets;
`undefined` only when both are absent. -/
def mergeIterables (base override : Option (List String)) :
    Option (List String) :=
  match base, override with
  | none, none => none
  | b, o => some (b.getD [] ++ o.getD [])

/-- Spread-style merge for scalar records (`{ ...base, ...override }`):
override bindings win where present. -/
def spreadRec {α : Type} (base override : Option (String → Option α)) :
    Option (String → Option α) :=
  match override with
  | none => base
  | some of =>
      some (fun k =>
        match of k with
        | some v => some v
        | none => (base.bind (fun f => f k)))

/-- `mergeRequirementContexts` of `src/db/tav.ts`. -/
def mergeRequirementContexts (base : RequirementEvaluationContext)
    (override : Option RequirementEvaluationContext) :
    RequirementEvaluationContext :=
  match override with
  | none => base
  | some o =>
      { abilities := spreadRec base.abilities o.abilities
        tavLevel := base.tavLevel
        skillLevels := spreadRec base.skillLevels o.skillLevels
        inventory :=
          match o.inventory with
          | some _ => mergeInventory base.inventory o.inventory
          | none => base.inventory
        flags := mergeIterables base.flags o.flags
        customChecks := spreadRec base.customChecks o.customChecks
        resolveCustom :=
          match o.resolveCustom with
          | some f => some f
          | none => base.resolveCustom }

/-- `targetlessTargetDefinition` of `src/db/tav.ts`. -/
def targetlessTargetDefinition : TargetDefinition :=
  { id := TASK_TARGETLESS_KEY
    skills := []
    addRequirements := []
    executeRequirements := [] }

/-- `canExecuteTask` of `src/db/tav.ts`.  The tick engine always passes a
concrete (non-null) `targetId` string, so the `?? TASK_TARGETLESS_KEY`
defaulting of the input field is applied by the caller.  Thrown errors are
`Except.error`. -/
def canExecuteTask (skillDefs : List SkillDefinition)
    (targetDefs : List TargetDefinition) (s : TavState)
    (skillId targetId : String)
    (context : Option RequirementEvaluationContext) : Except String Bool :=
  match skillDefs.find? (fun d => d.id == skillId) with
  | none => Except.error ("Unknown skill id: " ++ skillId)
  | some skillDefinition =>
      if !(skillDefinition.targetIds.contains targetId) then
        Except.error ("Skill " ++ skillId ++ " cannot target id: " ++ targetId)
      else
        let baseContext := buildRequirementContext s
        let ctx := mergeRequirementContexts baseContext context
        if !(evaluateRequirements skillDefinition.executeRequirements ctx) then
          Except.ok false
        else
          let targetDefinition :=
            (targetDefs.find? (fun d => d.id == targetId)).getD
              targetlessTargetDefinition
          if targetId != TASK_TARGETLESS_KEY &&
              !targetDefinition.skills.isEmpty &&
              !(targetDefinition.skills.contains skillId) then
            Except.ok false
          else
            Except.ok (evaluateRequirements targetDefinition.executeRequirements ctx)

/-! ### Tick engine (`src/lib/task.ts`, single-pass revision) -/

/-- `TaskKey`. -/
structure TaskKey where
  tavId : Int
  skillId : String
  targetId : String
deriving Repr, DecidableEq

/-- `TickResult`. -/
structure TickResult where
  started : List TaskKey
  completed : List TaskKey
  failed : List TaskKey
deriving Repr, DecidableEq

/-- `emptyResult()`. -/
def emptyResult : TickResult :=
  { started := [], completed := [], failed := [] }

/-- `taskKey(record)`. -/
def taskKey (t : TaskRow) : TaskKey :=
  { tavId := t.tavId, skillId := t.skillId, targetId := t.targetId }

/-- Tick options: `now`, optional `lastTickAt`, optional requirement-context
override.  The actor is fixed by the `TavState`, so `tavId` resolution
(`resolveTavId`) is outside the model. -/
structure TickOptions where
  now : Int
  lastTickAt : Option Int
  context : Option RequirementEvaluationContext

/-- `findSkillDefinition` of `src/lib/task.ts`. -/
def findSkillDefinition (defs : List SkillDefinition) (skillId : String) :
    Option SkillDefinition :=
  defs.find? (fun d => d.id == skillId)

/-- The `where` clause used by the task `update` statements: rows matching
the executing task's (tavId, skillId, targetId) key. -/
def matchesKey (t e : TaskRow) : Bool :=
  t.tavId == e.tavId && t.skillId == e.skillId && t.targetId == e.targetId

/-- `markTaskFailed` of `src/lib/task.ts`: set `status = failed`,
`endedAt = now` on rows matching the executing task's key; the boolean is
`failedRows.length > 0`. -/
def markTaskFailed (tasks : List TaskRow) (executing : TaskRow) (now : Int) :
    List TaskRow × Bool :=
  (tasks.map (fun t =>
      if matchesKey t executing then
        { t with status := TaskStatus.failed, endedAt := some now }
      else t),
    tasks.any (fun t => matchesKey t executing))

/-- `moveTaskToPending` of `src/lib/task.ts`: set `status = pending`,
`startedAt = null`, `endedAt = now` on rows matching the key; the boolean is
`completedRows.length > 0`. -/
def moveTaskToPending (tasks : List TaskRow) (executing : TaskRow) (now : Int) :
    List TaskRow × Bool :=
  (tasks.map (fun t =>
      if matchesKey t executing then
        { t with status := TaskStatus.pending, startedAt := none,
                 endedAt := some now }
      else t),
    tasks.any (fun t => matchesKey t executing))

/-- A scheduling candidate (`{ row, priority }` of `startBestPendingTask`). -/
structure Candidate where
  row : TaskRow
  priority : Int

/-- The comparator passed to `candidates.sort` in `src/lib/task.ts`:
ascending priority, then ascending `createdAt`. -/
def candidateCmp (a b : Candidate) : Int :=
  if a.priority ≠ b.priority then a.priority - b.priority
  else a.row.createdAt - b.row.createdAt

/-- Stable insertion used to model the (stable) JavaScript `Array.sort`:
an element is placed before the first element it does not compare after. -/
def sortInsert (x : Candidate) : List Candidate → List Candidate
  | [] => [x]
  | y :: ys => if candidateCmp x y ≤ 0 then x :: y :: ys else y :: sortInsert x ys

/-- Stable sort of the candidate list with `candidateCmp` (JS
`candidates.sort(...)`). -/
def sortCandidates : List Candidate → List Candidate
  | [] => []
  | x :: xs => sortInsert x (sortCandidates xs)

/-- The candidate list built by `startBestPendingTask` (the `for` loop over
`pendingTasks`): keep pending tasks whose skill definition exists and for
which `canExecuteTask` resolves to `true`; a thrown error is caught and the
task skipped (`catch { continue }`). -/
def tickCandidates (skillDefs : List SkillDefinition)
    (targetDefs : List TargetDefinition) (s : TavState)
    (context : Option RequirementEvaluationContext) : List Candidate :=
  (s.tasks.filter (fun t => t.status == TaskStatus.pending)).filterMap
    (fun row =>
      match findSkillDefinition skillDefs row.skillId with
      | none => none
      | some definition =>
          match canExecuteTask skillDefs targetDefs s row.skillId
              row.targetId context with
          | Except.ok true => some { row := row, priority := definition.priority }
          | Except.ok false => none
          | Except.error _ => none)

/-- The `update ... set status = 'executing'` applied to the chosen row's
key, guarded by `status = 'pending'` in the `where` clause. -/
def startTaskUpdate (chosen : TaskRow) (now : Int) (t : TaskRow) : TaskRow :=
  if matchesKey t chosen && t.status == TaskStatus.pending then
    { t with status := TaskStatus.executing, startedAt := some now,
             endedAt := none }
  else t

/-- `startBestPendingTask` of `src/lib/task.ts`: sort the candidates with the
comparator, start the first (`candidates[0]`), and report its key when the
guarded update touched a row.  Returns the keys pushed to `result.started`
and the updated task list. -/
def startBestPendingTask (skillDefs : List SkillDefinition)
    (targetDefs : List TargetDefinition) (s : TavState) (now : Int)
    (context : Option RequirementEvaluationContext) :
    List TaskKey × List TaskRow :=
  let pendingTasks := s.tasks.filter (fun t => t.status == TaskStatus.pending)
  if pendingTasks.isEmpty then ([], s.tasks)
  else
    match sortCandidates (tickCandidates skillDefs targetDefs s context) with
    | [] => ([], s.tasks)
    | chosen :: _ =>
        let updated := s.tasks.map (startTaskUpdate chosen.row now)
        let started :=
          if s.tasks.any (fun t =>
              matchesKey t chosen.row && t.status == TaskStatus.pending) then
            [taskKey chosen.row]
          else []
        (started, updated)

/-- The executing-task finalization step of `tickTask` (inline in the source
transaction body): returns the partial result, the updated task list, and
the `hasExecuting` flag. -/
def tickFinalizePhase (skillDefs : List SkillDefinition)
    (tasks : List TaskRow) (now lastTick : Int) :
    TickResult × List TaskRow × Bool :=
  match tasks.find? (fun t => t.status == TaskStatus.executing) with
  | none => (emptyResult, tasks, false)
  | some executing =>
      match findSkillDefinition skillDefs executing.skillId with
      | none =>
          let r := markTaskFailed tasks executing now
          ({ emptyResult with
              failed := if r.2 then [taskKey executing] else [] },
            r.1, false)
      | some definition =>
          let deadline := lastTick + definition.duration
          if now ≥ deadline then
            let r := moveTaskToPending tasks executing now
            ({ emptyResult with
                completed := if r.2 then [taskKey executing] else [] },
              r.1, false)
          else (emptyResult, tasks, true)

/-- `tickTask` of `src/lib/task.ts` (single-pass revision): resolve the last
tick timestamp (`options.lastTickAt ?? tavRow.updatedAt`), finalize the
executing task (fail it when its skill definition vanished, recycle it to
pending when `now` reached `lastTick + duration`, otherwise leave it
running), then—when nothing is left running—start the best pending task;
finally bump `updatedAt` to `now`. -/
def tickTask (skillDefs : List SkillDefinition)
    (targetDefs : List TargetDefinition) (s : TavState)
    (options : TickOptions) : TickResult × TavState :=
  let now := options.now
  let lastTick := options.lastTickAt.getD s.updatedAt
  let phase1 := tickFinalizePhase skillDefs s.tasks now lastTick
  let startPhase : List TaskKey × List TaskRow :=
    if phase1.2.2 then ([], phase1.2.1)
    else
      startBestPendingTask skillDefs targetDefs
        { s with tasks := phase1.2.1 } now options.context
  ({ started := startPhase.1, completed := phase1.1.completed,
      failed := phase1.1.failed },
    { s with tasks := startPhase.2, updatedAt := now })

/-! ### Helper lemmas about the tick engine -/

lemma matchesKey_self (t : TaskRow) : matchesKey t t = true := by
  simp [matchesKey]

lemma length_sortInsert (x : Candidate) (l : List Candidate) :
    (sortInsert x l).length = l.length + 1 := by
  induction l with
  | nil => rfl
  | cons y ys ih =>
      simp only [sortInsert]
      split
      · simp
      · simp [ih]

lemma mem_sortInsert {x y : Candidate} {l : List Candidate} :
    x ∈ sortInsert y l ↔ x = y ∨ x ∈ l := by
  induction l with
  | nil => simp [sortInsert]
  | cons z zs ih =>
      simp only [sortInsert]
      split
      · simp [List.mem_cons]
      · simp only [List.mem_cons, ih]
        tauto

lemma mem_sortCandidates {x : Candidate} {l : List Candidate} :
    x ∈ sortCandidates l ↔ x ∈ l := by
  induction l with
  | nil => simp [sortCandidates]
  | cons y ys ih => simp [sortCandidates, mem_sortInsert, ih]

lemma sortCandidates_ne_nil {l : List Candidate} (h : l ≠ []) :
    sortCandidates l ≠ [] := by
  cases l with
  | nil => exact absurd rfl h
  | cons y ys =>
      intro hcon
      have : y ∈ sortCandidates (y :: ys) := mem_sortCandidates.mpr (by simp)
      rw [hcon] at this
      simp at this

/-- Membership inversion for the candidate list: a candidate's row is a
pending task whose skill definition exists. -/
lemma tickCandidates_row_spec {skillDefs : List SkillDefinition}
    {targetDefs : List TargetDefinition} {s : TavState}
    {ctx : Option RequirementEvaluationContext} {c : Candidate}
    (h : c ∈ tickCandidates skillDefs targetDefs s ctx) :
    c.row ∈ s.tasks ∧ c.row.status = TaskStatus.pending ∧
      (findSkillDefinition skillDefs c.row.skillId).isSome := by
  unfold tickCandidates at h
  obtain ⟨row, hrow, hf⟩ := List.mem_filterMap.mp h
  have hmem := List.mem_filter.mp hrow
  have hpend : row.status = TaskStatus.pending := by
    have := hmem.2
    simpa using this
  cases hd : findSkillDefinition skillDefs row.skillId with
  | none => rw [hd] at hf; simp at hf
  | some d =>
      rw [hd] at hf
      cases hc : canExecuteTask skillDefs targetDefs s row.skillId
          row.targetId ctx with
      | error msg => rw [hc] at hf; simp at hf
      | ok b =>
          rw [hc] at hf
          cases b with
          | false => simp at hf
          | true =>
              simp only [Option.some.injEq] at hf
              subst hf
              exact ⟨hmem.1, hpend, by simp [hd]⟩

/-- State congruence: `canExecuteTask` reads only the static tav fields, not
the task list or `updatedAt`. -/
lemma canExecuteTask_state_congr (skillDefs : List SkillDefinition)
    (targetDefs : List TargetDefinition) (s : TavState)
    (ts ts' : List TaskRow) (ua ua' : Int) (sk tg : String)
    (c : Option RequirementEvaluationContext) :
    canExecuteTask skillDefs targetDefs { s with tasks := ts, updatedAt := ua }
      sk tg c =
    canExecuteTask skillDefs targetDefs { s with tasks := ts', updatedAt := ua' }
      sk tg c := rfl

/-- State congruence for `startBestPendingTask`: only the task list matters
beyond the static tav fields. -/
lemma startBestPendingTask_state_congr (skillDefs : List SkillDefinition)
    (targetDefs : List TargetDefinition) (s : TavState) (ts : List TaskRow)
    (ua : Int) (now : Int) (c : Option RequirementEvaluationContext) :
    startBestPendingTask skillDefs targetDefs
      { s with tasks := ts, updatedAt := ua } now c =
    startBestPendingTask skillDefs targetDefs { s with tasks := ts } now c := rfl

/-- Under the database's unique-executing-task index (modelled as the
pairwise-uniqueness hypothesis), every executing member equals the row
returned by `find?`. -/
lemma exec_eq_found {tasks : List TaskRow} {e : TaskRow}
    (huniq : ∀ t ∈ tasks, ∀ t' ∈ tasks, t.status = TaskStatus.executing →
      t'.status = TaskStatus.executing → t = t')
    (hfe : tasks.find? (fun t => t.status == TaskStatus.executing) = some e)
    {t : TaskRow} (ht : t ∈ tasks) (hex : t.status = TaskStatus.executing) :
    t = e := by
  have he : e ∈ tasks := List.mem_of_find?_eq_some hfe
  have hee : e.status = TaskStatus.executing := by
    have := List.find?_some hfe
    simpa using this
  exact huniq t ht e he hex hee

lemma markTaskFailed_no_exec {tasks : List TaskRow} {e : TaskRow} {now : Int}
    (huniq : ∀ t ∈ tasks, ∀ t' ∈ tasks, t.status = TaskStatus.executing →
      t'.status = TaskStatus.executing → t = t')
    (hfe : tasks.find? (fun t => t.status == TaskStatus.executing) = some e) :
    ∀ t ∈ (markTaskFailed tasks e now).1, t.status ≠ TaskStatus.executing := by
  intro t ht
  unfold markTaskFailed at ht
  simp only at ht
  obtain ⟨t0, ht0, himg⟩ := List.mem_map.mp ht
  by_cases hm : matchesKey t0 e = true
  · rw [if_pos hm] at himg
    rw [← himg]
    simp
  · rw [if_neg (by simp [hm])] at himg
    subst himg
    intro hex
    have := exec_eq_found huniq hfe ht0 hex
    subst this
    exact hm (matchesKey_self t0)

lemma moveTaskToPending_no_exec {tasks : List TaskRow} {e : TaskRow} {now : Int}
    (huniq : ∀ t ∈ tasks, ∀ t' ∈ tasks, t.status = TaskStatus.executing →
      t'.status = TaskStatus.executing → t = t')
    (hfe : tasks.find? (fun t => t.status == TaskStatus.executing) = some e) :
    ∀ t ∈ (moveTaskToPending tasks e now).1, t.status ≠ TaskStatus.executing := by
  intro t ht
  unfold moveTaskToPending at ht
  simp only at ht
  obtain ⟨t0, ht0, himg⟩ := List.mem_map.mp ht
  by_cases hm : matchesKey t0 e = true
  · rw [if_pos hm] at himg
    rw [← himg]
    simp
  · rw [if_neg (by simp [hm])] at himg
    subst himg
    intro hex
    have := exec_eq_found huniq hfe ht0 hex
    subst this
    exact hm (matchesKey_self t0)

/-- Phase-1 branch equation: no executing task. -/
lemma tickFinalizePhase_none (skillDefs : List SkillDefinition)
    {tasks : List TaskRow} (now lastTick : Int)
    (hfe : tasks.find? (fun t => t.status == TaskStatus.executing) = none) :
    tickFinalizePhase skillDefs tasks now lastTick =
      (emptyResult, tasks, false) := by
  unfold tickFinalizePhase
  rw [hfe]

/-- Phase-1 branch equation: the executing task's skill definition
vanished. -/
lemma tickFinalizePhase_failed (skillDefs : List SkillDefinition)
    {tasks : List TaskRow} (now lastTick : Int) {e : TaskRow}
    (hfe : tasks.find? (fun t => t.status == TaskStatus.executing) = some e)
    (hd : findSkillDefinition skillDefs e.skillId = none) :
    tickFinalizePhase skillDefs tasks now lastTick =
      ({ emptyResult with
          failed := if (markTaskFailed tasks e now).2 then [taskKey e] else [] },
        (markTaskFailed tasks e now).1, false) := by
  unfold tickFinalizePhase
  rw [hfe]
  dsimp only
  rw [hd]

/-- Phase-1 branch equation: the deadline passed, the task recycles. -/
lemma tickFinalizePhase_completed (skillDefs : List SkillDefinition)
    {tasks : List TaskRow} (now lastTick : Int) {e : TaskRow}
    {d : SkillDefinition}
    (hfe : tasks.find? (fun t => t.status == TaskStatus.executing) = some e)
    (hd : findSkillDefinition skillDefs e.skillId = some d)
    (hdl : now ≥ lastTick + d.duration) :
    tickFinalizePhase skillDefs tasks now lastTick =
      ({ emptyResult with
          completed :=
            if (moveTaskToPending tasks e now).2 then [taskKey e] else [] },
        (moveTaskToPending tasks e now).1, false) := by
  unfold tickFinalizePhase
  rw [hfe]
  dsimp only
  rw [hd]
  dsimp only
  rw [if_pos hdl]

/-- Phase-1 branch equation: the task is still running. -/
lemma tickFinalizePhase_running (skillDefs : List SkillDefinition)
    {tasks : List TaskRow} (now lastTick : Int) {e : TaskRow}
    {d : SkillDefinition}
    (hfe : tasks.find? (fun t => t.status == TaskStatus.executing) = some e)
    (hd : findSkillDefinition skillDefs e.skillId = some d)
    (hdl : ¬ now ≥ lastTick + d.duration) :
    tickFinalizePhase skillDefs tasks now lastTick =
      (emptyResult, tasks, true) := by
  unfold tickFinalizePhase
  rw [hfe]
  dsimp only
  rw [hd]
  dsimp only
  rw [if_neg hdl]

/-- When phase 1 reports no running task, no row of its output is
executing. -/
lemma tickFinalizePhase_no_exec (skillDefs : List SkillDefinition)
    {tasks : List TaskRow} {now lastTick : Int}
    (huniq : ∀ t ∈ tasks, ∀ t' ∈ tasks, t.status = TaskStatus.executing →
      t'.status = TaskStatus.executing → t = t')
    (h : (tickFinalizePhase skillDefs tasks now lastTick).2.2 = false) :
    ∀ t ∈ (tickFinalizePhase skillDefs tasks now lastTick).2.1,
      t.status ≠ TaskStatus.executing := by
  cases hfe : tasks.find? (fun t => t.status == TaskStatus.executing) with
  | none =>
      rw [tickFinalizePhase_none skillDefs now lastTick hfe]
      intro t ht hex
      have := List.find?_eq_none.mp hfe t ht
      simp [hex] at this
  | some e =>
      cases hd : findSkillDefinition skillDefs e.skillId with
      | none =>
          rw [tickFinalizePhase_failed skillDefs now lastTick hfe hd]
          exact markTaskFailed_no_exec huniq hfe
      | some d =>
          by_cases hdl : now ≥ lastTick + d.duration
          · rw [tickFinalizePhase_completed skillDefs now lastTick hfe hd hdl]
            exact moveTaskToPending_no_exec huniq hfe
          · rw [tickFinalizePhase_running skillDefs now lastTick hfe hd hdl]
              at h
            simp at h

/-- When phase 1 reports a running task, the task list is untouched and the
running task's definition is known. -/
lemma tickFinalizePhase_has_exec (skillDefs : List SkillDefinition)
    {tasks : List TaskRow} {now lastTick : Int}
    (h : (tickFinalizePhase skillDefs tasks now lastTick).2.2 = true) :
    (tickFinalizePhase skillDefs tasks now lastTick).2.1 = tasks ∧
    ∃ e, tasks.find? (fun t => t.status == TaskStatus.executing) = some e ∧
      ∃ d, findSkillDefinition skillDefs e.skillId = some d ∧ d ∈ skillDefs := by
  cases hfe : tasks.find? (fun t => t.status == TaskStatus.executing) with
  | none => rw [tickFinalizePhase_none skillDefs now lastTick hfe] at h; simp at h
  | some e =>
      cases hd : findSkillDefinition skillDefs e.skillId with
      | none =>
          rw [tickFinalizePhase_failed skillDefs now lastTick hfe hd] at h
          simp at h
      | some d =>
          by_cases hdl : now ≥ lastTick + d.duration
          · rw [tickFinalizePhase_completed skillDefs now lastTick hfe hd hdl]
              at h
            simp at h
          · rw [tickFinalizePhase_running skillDefs now lastTick hfe hd hdl]
            exact ⟨rfl, e, rfl, d, hd, List.mem_of_find?_eq_some hd⟩

lemma startTaskUpdate_skillId (chosen : TaskRow) (now : Int) (t : TaskRow) :
    (startTaskUpdate chosen now t).skillId = t.skillId := by
  unfold startTaskUpdate
  split <;> rfl

lemma matchesKey_skillId {t e : TaskRow} (h : matchesKey t e = true) :
    t.skillId = e.skillId := by
  simp only [matchesKey, Bool.and_eq_true, beq_iff_eq] at h
  exact h.1.2

lemma startTaskUpdate_exec {chosen : TaskRow} {now : Int} {t : TaskRow}
    (h : (startTaskUpdate chosen now t).status = TaskStatus.executing) :
    t.status = TaskStatus.executing ∨
      (matchesKey t chosen = true ∧ t.status = TaskStatus.pending) := by
  unfold startTaskUpdate at h
  by_cases hc : (matchesKey t chosen && t.status == TaskStatus.pending) = true
  · right
    simp only [Bool.and_eq_true, beq_iff_eq] at hc
    exact ⟨hc.1, hc.2⟩
  · left
    rw [if_neg hc] at h
    exact h

/-- Case analysis for `startBestPendingTask`: either it does nothing, or it
starts the head of the sorted candidate list (always a pending member with a
known skill definition). -/
lemma startBestPendingTask_cases (skillDefs : List SkillDefinition)
    (targetDefs : List TargetDefinition) (s : TavState) (now : Int)
    (ctx : Option RequirementEvaluationContext) :
    startBestPendingTask skillDefs targetDefs s now ctx = ([], s.tasks) ∨
    ∃ chosen, chosen ∈ tickCandidates skillDefs targetDefs s ctx ∧
      startBestPendingTask skillDefs targetDefs s now ctx =
        ([taskKey chosen.row], s.tasks.map (startTaskUpdate chosen.row now)) := by
  unfold startBestPendingTask
  by_cases hpe :
      (s.tasks.filter (fun t => t.status == TaskStatus.pending)).isEmpty = true
  · left
    dsimp only
    rw [if_pos hpe]
  · dsimp only
    rw [if_neg hpe]
    cases hsc : sortCandidates (tickCandidates skillDefs targetDefs s ctx) with
    | nil => left; rfl
    | cons chosen rest =>
        right
        have hmem : chosen ∈ tickCandidates skillDefs targetDefs s ctx := by
          refine mem_sortCandidates.mp ?_
          rw [hsc]
          simp
        have hspec := tickCandidates_row_spec hmem
        refine ⟨chosen, hmem, ?_⟩
        have hany : s.tasks.any (fun t =>
            matchesKey t chosen.row && t.status == TaskStatus.pending) = true :=
          List.any_eq_true.mpr
            ⟨chosen.row, hspec.1, by simp [matchesKey_self, hspec.2.1]⟩
        dsimp only
        rw [if_pos hany]

/-- The second tick of C1 reduced to three facts about the state: the clock
is already at `now`, every executing row still has a (positive-duration)
definition, and when nothing is executing the start phase finds nothing. -/
lemma tickTask_noop (skillDefs : List SkillDefinition)
    (targetDefs : List TargetDefinition) (s' : TavState) (now : Int)
    (ctx : Option RequirementEvaluationContext)
    (hup : s'.updatedAt = now)
    (hknown : ∀ t ∈ s'.tasks, t.status = TaskStatus.executing →
      ∃ d, findSkillDefinition skillDefs t.skillId = some d ∧ 0 < d.duration)
    (hnostart :
      s'.tasks.find? (fun t => t.status == TaskStatus.executing) = none →
      startBestPendingTask skillDefs targetDefs s' now ctx = ([], s'.tasks)) :
    tickTask skillDefs targetDefs s'
      { now := now, lastTickAt := none, context := ctx } =
    (emptyResult, s') := by
  subst hup
  unfold tickTask
  dsimp only
  simp only [Option.getD_none]
  cases hfe : s'.tasks.find? (fun t => t.status == TaskStatus.executing) with
  | none =>
      rw [tickFinalizePhase_none skillDefs s'.updatedAt s'.updatedAt hfe]
      dsimp only
      rw [if_neg (by simp)]
      have hsb : startBestPendingTask skillDefs targetDefs
          { s' with tasks := s'.tasks } s'.updatedAt ctx = ([], s'.tasks) :=
        hnostart hfe
      rw [hsb]
      rfl
  | some e =>
      have he : e ∈ s'.tasks := List.mem_of_find?_eq_some hfe
      have hee : e.status = TaskStatus.executing := by
        have := List.find?_some hfe
        simpa using this
      obtain ⟨d, hd, hdur⟩ := hknown e he hee
      have hlt : ¬ (s'.updatedAt ≥ s'.updatedAt + d.duration) := by omega
      rw [tickFinalizePhase_running skillDefs s'.updatedAt s'.updatedAt
        hfe hd hlt]
      rfl

/-- After a pass whose finalize phase left no executing row, a repeated tick
with the same `now` is a no-op, whatever the start phase did. -/
lemma tickTask_phase2_noop (skillDefs : List SkillDefinition)
    (targetDefs : List TargetDefinition) (s : TavState)
    (tasks1 : List TaskRow) (now : Int)
    (ctx : Option RequirementEvaluationContext)
    (hdur : ∀ d ∈ skillDefs, 0 < d.duration)
    (hne : ∀ t ∈ tasks1, t.status ≠ TaskStatus.executing) :
    tickTask skillDefs targetDefs
      { s with
        tasks := (startBestPendingTask skillDefs targetDefs
          { s with tasks := tasks1 } now ctx).2,
        updatedAt := now }
      { now := now, lastTickAt := none, context := ctx } =
    (emptyResult,
      { s with
        tasks := (startBestPendingTask skillDefs targetDefs
          { s with tasks := tasks1 } now ctx).2,
        updatedAt := now }) := by
  rcases startBestPendingTask_cases skillDefs targetDefs
      { s with tasks := tasks1 } now ctx with hcase | ⟨chosen, hcmem, hcase⟩
  · rw [hcase]
    dsimp only
    apply tickTask_noop
    · rfl
    · intro t ht hex
      exact absurd hex (hne t ht)
    · intro _
      rw [startBestPendingTask_state_congr]
      exact hcase
  · rw [hcase]
    dsimp only
    have hcspec := tickCandidates_row_spec hcmem
    apply tickTask_noop
    · rfl
    · intro t ht hex
      obtain ⟨t0, ht0, himg⟩ := List.mem_map.mp ht
      have hex0 : (startTaskUpdate chosen.row now t0).status =
          TaskStatus.executing := by rw [himg]; exact hex
      rcases startTaskUpdate_exec hex0 with h0 | ⟨hmk, hpend⟩
      · exact absurd h0 (hne t0 ht0)
      · obtain ⟨dd, hdd⟩ := Option.isSome_iff_exists.mp hcspec.2.2
        have hsk : t.skillId = chosen.row.skillId := by
          rw [← himg, startTaskUpdate_skillId]
          exact matchesKey_skillId hmk
        have hddmem : dd ∈ skillDefs := by
          have hdd' := hdd
          unfold findSkillDefinition at hdd'
          exact List.mem_of_find?_eq_some hdd'
        refine ⟨dd, ?_, hdur dd hddmem⟩
        rw [hsk]
        exact hdd
    · intro hfnone
      have h : (tasks1.map (startTaskUpdate chosen.row now)).find?
          (fun t => t.status == TaskStatus.executing) = none := hfnone
      have hmemtasks : chosen.row ∈ tasks1 := hcspec.1
      have himgmem : startTaskUpdate chosen.row now chosen.row ∈
          tasks1.map (startTaskUpdate chosen.row now) :=
        List.mem_map_of_mem _ hmemtasks
      have himgexec : (startTaskUpdate chosen.row now chosen.row).status =
          TaskStatus.executing := by
        unfold startTaskUpdate
        rw [if_pos (by simp [matchesKey_self, hcspec.2.1])]
      have hcon := List.find?_eq_none.mp h _ himgmem
      simp [himgexec] at hcon

/-- C1: calling `tickTask` a second time with the same `now`, the same
context override and no task mutations in between yields
`{started: [], completed: [], failed: []}` and leaves the whole per-tav
state — every task's status, the tav XP, the per-skill XP rows and the
inventory rows — unchanged.  The hypotheses are the repository's own static
guarantees: every configured skill duration is positive (`duration` has
`min(1500)` in the config schema) and at most one task of the tav is
executing (partial unique index `uniq_task_executing`). -/
theorem tickTask_idempotent (skillDefs : List SkillDefinition)
    (targetDefs : List TargetDefinition) (s : TavState) (o : TickOptions)
    (hdur : ∀ d ∈ skillDefs, 0 < d.duration)
    (huniq : ∀ t ∈ s.tasks, ∀ t' ∈ s.tasks, t.status = TaskStatus.executing →
      t'.status = TaskStatus.executing → t = t') :
    tickTask skillDefs targetDefs (tickTask skillDefs targetDefs s o).2
      { now := o.now, lastTickAt := none, context := o.context } =
    (emptyResult, (tickTask skillDefs targetDefs s o).2) := by
  cases hfe : s.tasks.find? (fun t => t.status == TaskStatus.executing) with
  | none =>
      have h1 : (tickTask skillDefs targetDefs s o).2 =
          { s with
            tasks := (startBestPendingTask skillDefs targetDefs
              { s with tasks := s.tasks } o.now o.context).2,
            updatedAt := o.now } := by
        unfold tickTask
        dsimp only
        rw [tickFinalizePhase_none skillDefs o.now
          (o.lastTickAt.getD s.updatedAt) hfe]
        rfl
      rw [h1]
      exact tickTask_phase2_noop skillDefs targetDefs s s.tasks o.now
        o.context hdur
        (fun t ht hex => by
          have := List.find?_eq_none.mp hfe t ht
          simp [hex] at this)
  | some e =>
      cases hd : findSkillDefinition skillDefs e.skillId with
      | none =>
          have h1 : (tickTask skillDefs targetDefs s o).2 =
              { s with
                tasks := (startBestPendingTask skillDefs targetDefs
                  { s with tasks := (markTaskFailed s.tasks e o.now).1 }
                  o.now o.context).2,
                updatedAt := o.now } := by
            unfold tickTask
            dsimp only
            rw [tickFinalizePhase_failed skillDefs o.now
              (o.lastTickAt.getD s.updatedAt) hfe hd]
            rfl
          rw [h1]
          exact tickTask_phase2_noop skillDefs targetDefs s
            (markTaskFailed s.tasks e o.now).1 o.now o.context hdur
            (markTaskFailed_no_exec huniq hfe)
      | some d =>
          by_cases hdl : o.now ≥ (o.lastTickAt.getD s.updatedAt) + d.duration
          · have h1 : (tickTask skillDefs targetDefs s o).2 =
                { s with
                  tasks := (startBestPendingTask skillDefs targetDefs
                    { s with tasks := (moveTaskToPending s.tasks e o.now).1 }
                    o.now o.context).2,
                  updatedAt := o.now } := by
              unfold tickTask
              dsimp only
              rw [tickFinalizePhase_completed skillDefs o.now
                (o.lastTickAt.getD s.updatedAt) hfe hd hdl]
              rfl
            rw [h1]
            exact tickTask_phase2_noop skillDefs targetDefs s
              (moveTaskToPending s.tasks e o.now).1 o.now o.context hdur
              (moveTaskToPending_no_exec huniq hfe)
          · have h1 : (tickTask skillDefs targetDefs s o).2 =
                { s with tasks := s.tasks, updatedAt := o.now } := by
              unfold tickTask
              dsimp only
              rw [tickFinalizePhase_running skillDefs o.now
                (o.lastTickAt.getD s.updatedAt) hfe hd hdl]
              rfl
            rw [h1]
            apply tickTask_noop
            · rfl
            · intro t ht hex
              have hte : t = e := exec_eq_found huniq hfe ht hex
              subst hte
              exact ⟨d, hd,
                hdur d (by
                  have hd' := hd
                  unfold findSkillDefinition at hd'
                  exact List.mem_of_find?_eq_some hd')⟩
            · intro hfnone
              have h : s.tasks.find?
                  (fun t => t.status == TaskStatus.executing) = none := hfnone
              rw [hfe] at h
              simp at h

lemma matchesKey_startTaskUpdate (c : TaskRow) (now : Int) (t e : TaskRow) :
    matchesKey (startTaskUpdate c now t) e = matchesKey t e := by
  unfold startTaskUpdate
  split <;> rfl

lemma startTaskUpdate_of_not_pending {c : TaskRow} {now : Int} {t : TaskRow}
    (h : t.status ≠ TaskStatus.pending) : startTaskUpdate c now t = t := by
  unfold startTaskUpdate
  rw [if_neg]
  simp [h]

/-- Rows matching the failed key come out of `markTaskFailed` with status
`failed`. -/
lemma markTaskFailed_matched_failed {tasks : List TaskRow} {e : TaskRow}
    {now : Int} :
    ∀ t ∈ (markTaskFailed tasks e now).1, matchesKey t e = true →
      t.status = TaskStatus.failed := by
  intro t ht hm
  unfold markTaskFailed at ht
  simp only at ht
  obtain ⟨t0, _, himg⟩ := List.mem_map.mp ht
  by_cases h0 : matchesKey t0 e = true
  · rw [if_pos h0] at himg
    rw [← himg]
  · rw [if_neg (by simp [h0])] at himg
    subst himg
    exact absurd hm h0

/-- When at least one candidate exists, `startBestPendingTask` always starts
the head of the sorted candidate list. -/
lemma startBestPendingTask_starts {skillDefs : List SkillDefinition}
    {targetDefs : List TargetDefinition} {s : TavState} (now : Int)
    {ctx : Option RequirementEvaluationContext} (c : Candidate)
    (hc : c ∈ tickCandidates skillDefs targetDefs s ctx) :
    ∃ chosen, chosen ∈ tickCandidates skillDefs targetDefs s ctx ∧
      startBestPendingTask skillDefs targetDefs s now ctx =
        ([taskKey chosen.row], s.tasks.map (startTaskUpdate chosen.row now)) := by
  rcases startBestPendingTask_cases skillDefs targetDefs s now ctx
    with hcase | ⟨chosen, hmem, hcase⟩
  · exfalso
    have hspec := tickCandidates_row_spec hc
    unfold startBestPendingTask at hcase
    have hrowmem : c.row ∈ s.tasks.filter
        (fun t => t.status == TaskStatus.pending) :=
      List.mem_filter.mpr ⟨hspec.1, by simp [hspec.2.1]⟩
    have hne : (s.tasks.filter (fun t => t.status == TaskStatus.pending)).isEmpty
        = false := by
      cases hl : s.tasks.filter (fun t => t.status == TaskStatus.pending) with
      | nil => rw [hl] at hrowmem; simp at hrowmem
      | cons a l => rfl
    rw [if_neg (by simp [hne])] at hcase
    cases hsc : sortCandidates (tickCandidates skillDefs targetDefs s ctx) with
    | nil =>
        have : c ∈ sortCandidates (tickCandidates skillDefs targetDefs s ctx) :=
          mem_sortCandidates.mpr hc
        rw [hsc] at this
        simp at this
    | cons chosen rest =>
        rw [hsc] at hcase
        dsimp only at hcase
        have hmem : chosen ∈ tickCandidates skillDefs targetDefs s ctx := by
          refine mem_sortCandidates.mp ?_
          rw [hsc]
          simp
        have hspec2 := tickCandidates_row_spec hmem
        have hany : s.tasks.any (fun t =>
            matchesKey t chosen.row && t.status == TaskStatus.pending) = true :=
          List.any_eq_true.mpr
            ⟨chosen.row, hspec2.1, by simp [matchesKey_self, hspec2.2.1]⟩
        rw [if_pos hany] at hcase
        have := congrArg Prod.fst hcase
        simp at this
  · exact ⟨chosen, hmem, hcase⟩

/-- C4 (amended): when the executing task's skill definition has vanished,
`tickTask` transitions it to `failed` and records it — and then still
proceeds to the start phase in the same call: whenever some other pending
task is eligible, a task is started in the same call (the engine does not
stop after the forced failure). -/
theorem tickTask_unknownSkill_fails_then_starts
    (skillDefs : List SkillDefinition) (targetDefs : List TargetDefinition)
    (s : TavState) (o : TickOptions) (e p : TaskRow)
    (hfe : s.tasks.find? (fun t => t.status == TaskStatus.executing) = some e)
    (hd : findSkillDefinition skillDefs e.skillId = none)
    (hp : p ∈ s.tasks) (hpend : p.status = TaskStatus.pending)
    (hpkey : matchesKey p e = false)
    (hpdef : (findSkillDefinition skillDefs p.skillId).isSome)
    (hpexec : canExecuteTask skillDefs targetDefs s p.skillId p.targetId
        o.context = Except.ok true) :
    (tickTask skillDefs targetDefs s o).1.failed = [taskKey e] ∧
    (∀ t ∈ (tickTask skillDefs targetDefs s o).2.tasks,
        matchesKey t e = true → t.status = TaskStatus.failed) ∧
    (tickTask skillDefs targetDefs s o).1.started ≠ [] := by
  have hmt : (markTaskFailed s.tasks e o.now).2 = true :=
    List.any_eq_true.mpr
      ⟨e, List.mem_of_find?_eq_some hfe, matchesKey_self e⟩
  have h1 : tickTask skillDefs targetDefs s o =
      ({ started := (startBestPendingTask skillDefs targetDefs
            { s with tasks := (markTaskFailed s.tasks e o.now).1 }
            o.now o.context).1,
          completed := [], failed := [taskKey e] },
        { s with
          tasks := (startBestPendingTask skillDefs targetDefs
            { s with tasks := (markTaskFailed s.tasks e o.now).1 }
            o.now o.context).2,
          updatedAt := o.now }) := by
    unfold tickTask
    dsimp only
    rw [tickFinalizePhase_failed skillDefs o.now
      (o.lastTickAt.getD s.updatedAt) hfe hd]
    dsimp only
    rw [hmt]
    rfl
  have hpT1 : p ∈ (markTaskFailed s.tasks e o.now).1 := by
    unfold markTaskFailed
    simp only
    exact List.mem_map.mpr ⟨p, hp, by rw [if_neg (by simp [hpkey])]⟩
  obtain ⟨dp, hdp⟩ := Option.isSome_iff_exists.mp hpdef
  have hcand : (⟨p, dp.priority⟩ : Candidate) ∈ tickCandidates skillDefs
      targetDefs { s with tasks := (markTaskFailed s.tasks e o.now).1 }
      o.context := by
    unfold tickCandidates
    refine List.mem_filterMap.mpr ⟨p, List.mem_filter.mpr ⟨hpT1, by
      simp [hpend]⟩, ?_⟩
    rw [hdp]
    have hpexec' : canExecuteTask skillDefs targetDefs
        { s with tasks := (markTaskFailed s.tasks e o.now).1 }
        p.skillId p.targetId o.context = Except.ok true := hpexec
    rw [hpexec']
  obtain ⟨chosen, hchmem, hcase⟩ :=
    startBestPendingTask_starts o.now _ hcand
  refine ⟨by rw [h1], ?_, ?_⟩
  · intro t ht hm
    rw [h1] at ht
    dsimp only at ht
    rw [hcase] at ht
    dsimp only at ht
    obtain ⟨t0, ht0, himg⟩ := List.mem_map.mp ht
    have hm0 : matchesKey t0 e = true := by
      rw [← himg, matchesKey_startTaskUpdate] at hm
      exact hm
    have hfail0 : t0.status = TaskStatus.failed :=
      markTaskFailed_matched_failed t0 ht0 hm0
    have : startTaskUpdate chosen.row o.now t0 = t0 :=
      startTaskUpdate_of_not_pending (by rw [hfail0]; intro hcon; cases hcon)
    rw [this] at himg
    rw [← himg]
    exact hfail0
  · rw [h1]
    dsimp only
    rw [hcase]
    simp

/-! ### Concrete fixtures for the tick-engine claims

Skill and target fixtures in the shape of the repository's configuration
(`data/config.toml`): a priority-5 `logging` skill on target `small_tree`, a
priority-3 `survey` skill on target `forest_edge`, and a targetless `idle`
skill.  All durations are 2000 ms and no execute requirements are set, so
every pending fixture task is eligible. -/

def loggingDef : SkillDefinition :=
  { id := "logging", priority := 5, duration := 2000,
    targetIds := ["small_tree"], addRequirements := [],
    executeRequirements := [] }

def surveyDef : SkillDefinition :=
  { id := "survey", priority := 3, duration := 2000,
    targetIds := ["forest_edge"], addRequirements := [],
    executeRequirements := [] }

def idleDef : SkillDefinition :=
  { id := "idle", priority := 5, duration := 2000,
    targetIds := [TASK_TARGETLESS_KEY], addRequirements := [],
    executeRequirements := [] }

def smallTreeDef : TargetDefinition :=
  { id := "small_tree", skills := [], addRequirements := [],
    executeRequirements := [] }

def forestEdgeDef : TargetDefinition :=
  { id := "forest_edge", skills := [], addRequirements := [],
    executeRequirements := [] }

/-- Two eligible pending tasks, priorities 5 (`logging`) and 3 (`survey`),
created at the same instant; nothing executing. -/
def twoPendingState : TavState :=
  { abilityScores := fun _ => none, flags := [], xp := 0, updatedAt := 0,
    skills := [], inventory := [],
    tasks :=
      [ { tavId := 1, skillId := "logging", targetId := "small_tree",
          status := TaskStatus.pending, createdAt := 0,
          startedAt := none, endedAt := none },
        { tavId := 1, skillId := "survey", targetId := "forest_edge",
          status := TaskStatus.pending, createdAt := 0,
          startedAt := none, endedAt := none } ] }

/-- An executing `logging` task that started at t=0 and was last observed by
a tick at t=1000 (`updatedAt = 1000`). -/
def earlyObservedState : TavState :=
  { abilityScores := fun _ => none, flags := [], xp := 0, updatedAt := 1000,
    skills := [], inventory := [],
    tasks :=
      [ { tavId := 1, skillId := "logging", targetId := "small_tree",
          status := TaskStatus.executing, createdAt := 0,
          startedAt := some 0, endedAt := none } ] }

/-- An executing task whose skill id `ghost` has no definition, next to an
eligible pending `idle` task. -/
def ghostState : TavState :=
  { abilityScores := fun _ => none, flags := [], xp := 0, updatedAt := 0,
    skills := [], inventory := [],
    tasks :=
      [ { tavId := 1, skillId := "ghost", targetId := TASK_TARGETLESS_KEY,
          status := TaskStatus.executing, createdAt := 0,
          startedAt := some 0, endedAt := none },
        { tavId := 1, skillId := "idle", targetId := TASK_TARGETLESS_KEY,
          status := TaskStatus.pending, createdAt := 5,
          startedAt := none, endedAt := none } ] }

/-- C1 witness: the idempotence theorem applied to a concrete tav with two
pending tasks, ticked twice at `now = 100`. -/
theorem tickTask_idempotent_witness :
    (∀ d ∈ [loggingDef, surveyDef], 0 < d.duration) ∧
    (∀ t ∈ twoPendingState.tasks, ∀ t' ∈ twoPendingState.tasks,
      t.status = TaskStatus.executing → t'.status = TaskStatus.executing →
      t = t') ∧
    tickTask [loggingDef, surveyDef] [smallTreeDef, forestEdgeDef]
        (tickTask [loggingDef, surveyDef] [smallTreeDef, forestEdgeDef]
          twoPendingState
          { now := 100, lastTickAt := some 0, context := none }).2
        { now := 100, lastTickAt := none, context := none } =
      (emptyResult,
        (tickTask [loggingDef, surveyDef] [smallTreeDef, forestEdgeDef]
          twoPendingState
          { now := 100, lastTickAt := some 0, context := none }).2) :=
  ⟨by decide, by decide,
    tickTask_idempotent [loggingDef, surveyDef] [smallTreeDef, forestEdgeDef]
      twoPendingState { now := 100, lastTickAt := some 0, context := none }
      (by decide) (by decide)⟩

/-- C2 (failing input, evaluated): both fixture tasks are eligible
candidates with priorities 5 (`logging`) and 3 (`survey`), yet the tick
starts the priority-3 `survey` task: `startBestPendingTask` sorts the
candidates by ascending `a.priority - b.priority` and takes
`candidates[0]`, the lowest priority.  The repository's tests ("selects the
highest priority executable pending task") and the other two revisions of
the engine (`b.priority - a.priority`, `definition.priority > best.priority`)
pick the highest. -/
theorem tickTask_starts_lowest_priority :
    (tickCandidates [loggingDef, surveyDef] [smallTreeDef, forestEdgeDef]
        twoPendingState none).map (fun c => (c.row.skillId, c.priority)) =
      [("logging", 5), ("survey", 3)] ∧
    (tickTask [loggingDef, surveyDef] [smallTreeDef, forestEdgeDef]
        twoPendingState
        { now := 100, lastTickAt := some 0, context := none }).1.started =
      [{ tavId := 1, skillId := "survey", targetId := "forest_edge" }] := by
  constructor
  · decide
  · decide

/-- C3 (failing input, evaluated): the fixture task started at t=0 with a
2000 ms duration, so its `startedAt + duration = 2000` deadline has passed
at `now = 2500`; but the engine computes the deadline from the last tick
timestamp (`updatedAt = 1000`), giving 3000, and reports nothing completed,
leaving the task executing. -/
theorem tickTask_deadline_ignores_startedAt :
    ((earlyObservedState.tasks.map (fun t => t.startedAt)) = [some 0] ∧
      loggingDef.duration = 2000 ∧ (0 : Int) + 2000 ≤ 2500) ∧
    (tickTask [loggingDef] [smallTreeDef] earlyObservedState
        { now := 2500, lastTickAt := none, context := none }).1.completed =
      [] ∧
    ((tickTask [loggingDef] [smallTreeDef] earlyObservedState
        { now := 2500, lastTickAt := none, context := none }).2.tasks.map
      (fun t => t.status)) = [TaskStatus.executing] := by
  refine ⟨by decide, by decide, by decide⟩

/-- C4 (counterexample): with an executing `ghost` task whose skill
definition is missing and an eligible pending `idle` task, the tick records
the forced failure and, contrary to the claim, starts the `idle` task in
the same call. -/
theorem tickTask_unknownSkill_starts_next :
    (tickTask [idleDef] [] ghostState
        { now := 100, lastTickAt := some 0, context := none }).1.failed =
      [{ tavId := 1, skillId := "ghost", targetId := TASK_TARGETLESS_KEY }] ∧
    (tickTask [idleDef] [] ghostState
        { now := 100, lastTickAt := some 0, context := none }).1.started =
      [{ tavId := 1, skillId := "idle", targetId := TASK_TARGETLESS_KEY }] := by
  constructor
  · decide
  · decide

/-- The executing ghost row of `ghostState`. -/
def ghostRow : TaskRow :=
  { tavId := 1, skillId := "ghost", targetId := TASK_TARGETLESS_KEY,
    status := TaskStatus.executing, createdAt := 0, startedAt := some 0,
    endedAt := none }

/-- The pending idle row of `ghostState`. -/
def idleRow : TaskRow :=
  { tavId := 1, skillId := "idle", targetId := TASK_TARGETLESS_KEY,
    status := TaskStatus.pending, createdAt := 5, startedAt := none,
    endedAt := none }

/-- C4 witness: the amended theorem applied to the `ghost` fixture. -/
theorem tickTask_unknownSkill_fails_then_starts_witness :
    (ghostState.tasks.find? (fun t => t.status == TaskStatus.executing) =
        some ghostRow) ∧
    ((tickTask [idleDef] [] ghostState
        { now := 100, lastTickAt := some 0, context := none }).1.failed =
      [taskKey ghostRow] ∧
    (∀ t ∈ (tickTask [idleDef] [] ghostState
        { now := 100, lastTickAt := some 0, context := none }).2.tasks,
        matchesKey t ghostRow = true → t.status = TaskStatus.failed) ∧
    (tickTask [idleDef] [] ghostState
        { now := 100, lastTickAt := some 0, context := none }).1.started ≠
      []) :=
  ⟨by decide,
    tickTask_unknownSkill_fails_then_starts [idleDef] [] ghostState
      { now := 100, lastTickAt := some 0, context := none }
      ghostRow idleRow
      (by decide) rfl (by decide) (by decide) (by decide) (by decide)
      rfl⟩

/-- C8: for every evaluation context, the empty requirement list and an
`and` node with no children evaluate to `true`, and an `or` node with no
children evaluates to `false`. -/
theorem evaluateRequirements_empty_and_or
    (ctx : RequirementEvaluationContext) :
    evaluateRequirements [] ctx = true ∧
    evaluateRequirements [Requirement.and []] ctx = true ∧
    evaluateRequirements [Requirement.or []] ctx = false := by
  refine ⟨?_, ?_, ?_⟩ <;>
    simp [evaluateRequirements, evaluateRequirementsList, evaluateRequirement,
      evaluateRequirementsAny]

/-! ### Inventory stack manager (`src/lib/inventory.ts`) -/

/-- A parsed item definition (`itemDefinitionSchema`); only the stack limit
is consulted by the inventory manager.  `stackLimit` is optional to model
the `?? DEfAULT_STACK_LIMIT` fallback in the source. -/
structure ItemDefinition where
  id : String
  stackLimit : Option Int
deriving Repr, DecidableEq

/-- `requireItemDefinition` of `src/lib/items.ts`: look the item up in the
loaded `ITEM_DEFINITIONS`, throwing for an unknown id. -/
def requireItemDefinition (items : List ItemDefinition) (itemId : String) :
    Except String ItemDefinition :=
  match items.find? (fun d => d.id == itemId) with
  | some d => Except.ok d
  | none => Except.error ("Unknown item definition: " ++ itemId)

/-- `getStackLimitSafe` of `src/lib/inventory.ts`: the item's limit or the
configured default. -/
def getStackLimitSafe (items : List ItemDefinition) (defaultStackLimit : Int)
    (itemId : String) : Except String Int :=
  (requireItemDefinition items itemId).map
    (fun d => d.stackLimit.getD defaultStackLimit)

/-- Replace the binding of `k` (first occurrence) or append it: JS
`map.set(k, v)` over an association list. -/
def setRec {α : Type} : List (String × α) → String → α → List (String × α)
  | [], k, v => [(k, v)]
  | (k', v') :: rest, k, v =>
      if k' == k then (k, v) :: rest else (k', v') :: setRec rest k v

/-- Stable ascending insertion by slot (models the `ORDER BY slot` read and
the source's per-item `list.sort((a, b) => a.slot - b.slot)`). -/
def insertBySlot (x : InventoryRow) : List InventoryRow → List InventoryRow
  | [] => [x]
  | y :: ys => if x.slot ≤ y.slot then x :: y :: ys else y :: insertBySlot x ys

/-- Sort inventory rows ascending by slot (`listInventory`'s ordering). -/
def sortRowsBySlot : List InventoryRow → List InventoryRow
  | [] => []
  | x :: xs => insertBySlot x (sortRowsBySlot xs)

/-- `buildStacks` of `src/lib/inventory.ts`: group the (slot-ordered) rows
into a map item → list of (slot, qty), preserving ascending slot order
within each item. -/
def buildStacks (rows : List InventoryRow) :
    List (String × List (Nat × Int)) :=
  rows.foldl
    (fun acc r =>
      setRec acc r.itemId ((lookupRec acc r.itemId).getD [] ++ [(r.slot, r.qty)]))
    []

/-- `totalsFromStacks`: per-item sums of the stack map. -/
def totalsFromStacks (stackMap : List (String × List (Nat × Int))) :
    List (String × Int) :=
  stackMap.map (fun p => (p.1, p.2.foldl (fun a s => a + s.2) 0))

/-- `nextFreeSlot` of `src/lib/inventory.ts`: the smallest non-negative slot
index not in the occupied set (the source's `while (occupied.has(s)) s += 1`
loop; by pigeonhole the answer is at most `occupied.length`). -/
def nextFreeSlot (occupied : List Nat) : Nat :=
  (((List.range (occupied.length + 1)).filter
    (fun s => !(occupied.contains s))).head?).getD 0

/-- The strict underflow pre-check of `applyInventoryDelta`
(`src/lib/inventory.ts`): walk the entries over a running totals record,
failing when a negative change would drive an item's total below zero. -/
def strictCheckLoop (totals : List (String × Int)) :
    List (String × Int) → Except String Unit
  | [] => Except.ok ()
  | (itemId, change) :: rest =>
      if change < 0 ∧ (lookupRec totals itemId).getD 0 + change < 0 then
        Except.error ("Insufficient quantity for item " ++ itemId)
      else
        strictCheckLoop
          (setRec totals itemId ((lookupRec totals itemId).getD 0 + change))
          rest

/-- The top-up loop of the positive branch: fill existing stacks of the item (ascending
slot order) up to the stack limit, returning the updated stack list and the
remaining quantity. -/
def topUpStacks (stackLimit : Int) :
    List (Nat × Int) → Int → List (Nat × Int) × Int
  | [], remaining => ([], remaining)
  | s :: rest, remaining =>
      if remaining ≤ 0 then (s :: rest, remaining)
      else
        let capacity := stackLimit - s.2
        if capacity ≤ 0 then
          let r := topUpStacks stackLimit rest remaining
          (s :: r.1, r.2)
        else
          let add := min capacity remaining
          let r := topUpStacks stackLimit rest (remaining - add)
          ((s.1, s.2 + add) :: r.1, r.2)

/-- The `while (remaining > 0)` loop of the positive branch: open new stacks
of at most `stackLimit` at the smallest free slots.  The source loops
forever when the stack limit is not positive (the config schema guarantees
`stack_limit ≥ 1`); the model returns early in that degenerate case to stay
total. -/
def createNewStacks (stackLimit : Int) (occupied : List Nat)
    (remaining : Int) : List (Nat × Int) × List Nat :=
  if h : 0 < remaining ∧ 0 < stackLimit then
    let chunk := min stackLimit remaining
    let slot := nextFreeSlot occupied
    let r := createNewStacks stackLimit (occupied ++ [slot]) (remaining - chunk)
    ((slot, chunk) :: r.1, r.2)
  else ([], occupied)
termination_by remaining.toNat
decreasing_by
  have h1 : 0 < min stackLimit remaining := by omega
  omega

/-- The LIFO drain loop of the negative branch (`for i = length-1 down to
0`): remove quantity from the most recent stacks first, deleting stacks that
reach zero.  Returns the surviving stacks, the unremoved remainder, and the
freed slots. -/
def drainStacks (remaining : Int) :
    List (Nat × Int) → List (Nat × Int) × Int × List Nat
  | [] => ([], remaining, [])
  | s :: rest =>
      let r := drainStacks remaining rest
      if r.2.1 ≤ 0 then (s :: r.1, r.2.1, r.2.2)
      else
        let remove := min s.2 r.2.1
        let newQty := s.2 - remove
        if newQty > 0 then
          ((s.1, newQty) :: r.1, r.2.1 - remove, r.2.2)
        else (r.1, r.2.1 - remove, s.1 :: r.2.2)

/-- One iteration of `applyInventoryDelta`'s entry loop: resolve the stack
limit, then top up / create stacks for positive changes or drain LIFO for
negative ones (erroring in strict mode when stock runs out).  The state is
the stack map plus the occupied slot set. -/
def applyEntry (items : List ItemDefinition) (defaultStackLimit : Int)
    (strict : Bool) (st : List (String × List (Nat × Int)) × List Nat)
    (e : String × Int) :
    Except String (List (String × List (Nat × Int)) × List Nat) :=
  (getStackLimitSafe items defaultStackLimit e.1).bind (fun stackLimit =>
    if e.2 == 0 then Except.ok st
    else if e.2 > 0 then
      let stackList := (lookupRec st.1 e.1).getD []
      let t := topUpStacks stackLimit stackList e.2
      let c := createNewStacks stackLimit st.2 t.2
      Except.ok (setRec st.1 e.1 (t.1 ++ c.1), c.2)
    else
      let stackList := (lookupRec st.1 e.1).getD []
      let d := drainStacks (-e.2) stackList
      if d.2.1 > 0 ∧ strict then
        Except.error ("Insufficient quantity for item " ++ e.1)
      else
        Except.ok (setRec st.1 e.1 d.1,
          st.2.filter (fun s => !(d.2.2.contains s))))

/-- The entry loop of `applyInventoryDelta`. -/
def applyEntries (items : List ItemDefinition) (defaultStackLimit : Int)
    (strict : Bool)
    (st : List (String × List (Nat × Int)) × List Nat) :
    List (String × Int) →
    Except String (List (String × List (Nat × Int)) × List Nat)
  | [] => Except.ok st
  | e :: rest =>
      (applyEntry items defaultStackLimit strict st e).bind
        (fun st' => applyEntries items defaultStackLimit strict st' rest)

/-- Flatten the stack map back to inventory rows in ascending slot order
(the database state after the transaction, read back with `listInventory`). -/
def rowsOfStacks (stackMap : List (String × List (Nat × Int))) :
    List InventoryRow :=
  sortRowsBySlot
    ((stackMap.map (fun p =>
      p.2.map (fun s => InventoryRow.mk s.1 p.1 s.2))).flatten)

/-- `ApplyDeltaOptions`: the `strict?: boolean` field. -/
structure ApplyDeltaOptions where
  strict : Option Bool
deriving Repr, DecidableEq

/-- `applyInventoryDelta` of `src/lib/inventory.ts` (the revision whose
signature reads `options: ApplyDeltaOptions = { strict: true }` and which
preserves existing slot numbers): filter zero deltas, run the strict
underflow pre-check on the item totals, then per entry top up existing
stackMap and open new stacks at the smallest free slots (positive change) or
drain stackMap LIFO (negative change).  An omitted `options` argument is
`none`; an explicitly supplied object is `some`.  `options.strict` is
truthy-tested, so a missing `strict` field reads as `false`. -/
def applyInventoryDelta (items : List ItemDefinition)
    (defaultStackLimit : Int) (rows : List InventoryRow)
    (deltas : List (String × Int)) (options : Option ApplyDeltaOptions) :
    Except String (List InventoryRow) :=
  let opts := options.getD { strict := some true }
  let strict := opts.strict.getD false
  let entries := deltas.filter (fun p => p.2 != 0)
  if entries.isEmpty then Except.ok rows
  else
    let existing := sortRowsBySlot rows
    let stackMap := buildStacks existing
    let occupied := existing.map (fun r => r.slot)
    let pre : Except String Unit :=
      if strict then strictCheckLoop (totalsFromStacks stackMap) entries
      else Except.ok ()
    pre.bind (fun _ =>
      (applyEntries items defaultStackLimit strict (stackMap, occupied)
        entries).map (fun st => rowsOfStacks st.1))

/-- `getInventoryTotals` of `src/lib/inventory.ts`, read as a total function:
the summed quantity of an item across all of the tav's stackMap (0 when the
item has no stack, where the source record simply has no key). -/
def getInventoryTotals (rows : List InventoryRow) (itemId : String) : Int :=
  rows.foldl (fun a r => if r.itemId == itemId then a + r.qty else a) 0

/-! #### `moveInventoryItem` (same revision) -/

/-- `assertSlot`: a slot argument must be a non-negative integer
(integrality is built into the `Int` model). -/
def assertSlot (value : Int) (label : String) : Except String Unit :=
  if 0 ≤ value then Except.ok ()
  else Except.error ("Invalid " ++ label)

/-- `map.set` keyed by slot. -/
def setSlot (bySlot : List (Nat × (String × Int))) (slot : Nat)
    (v : String × Int) : List (Nat × (String × Int)) :=
  match bySlot with
  | [] => [(slot, v)]
  | (s, w) :: rest =>
      if s == slot then (slot, v) :: rest else (s, w) :: setSlot rest slot v

/-- `map.delete` keyed by slot. -/
def deleteSlot (bySlot : List (Nat × (String × Int))) (slot : Nat) :
    List (Nat × (String × Int)) :=
  bySlot.filter (fun p => p.1 != slot)

/-- `map.get` keyed by slot. -/
def lookupSlot (bySlot : List (Nat × (String × Int))) (slot : Nat) :
    Option (String × Int) :=
  (bySlot.find? (fun p => p.1 == slot)).map (fun p => p.2)

/-- `mapBySlot` of `src/lib/inventory.ts`: current state keyed by slot. -/
def mapBySlot (rows : List InventoryRow) : List (Nat × (String × Int)) :=
  rows.foldl (fun m r => setSlot m r.slot (r.itemId, r.qty)) []

/-- `persistExactSnapshot`: write the slot map back as rows, sorted by slot. -/
def persistExactSnapshot (bySlot : List (Nat × (String × Int))) :
    List InventoryRow :=
  sortRowsBySlot
    (bySlot.map (fun p => InventoryRow.mk p.1 p.2.1 p.2.2))

/-- `moveInventoryItem` of `src/lib/inventory.ts` (slot-preserving
revision): empty destination moves the stack, same item merges up to the
stack limit keeping any leftover at `fromSlot`, different items swap. -/
def moveInventoryItem (items : List ItemDefinition)
    (defaultStackLimit : Int) (rows : List InventoryRow)
    (fromSlot toSlot : Int) : Except String (List InventoryRow) :=
  (assertSlot fromSlot "fromSlot").bind (fun _ =>
  (assertSlot toSlot "toSlot").bind (fun _ =>
    let bySlot := mapBySlot (sortRowsBySlot rows)
    match lookupSlot bySlot fromSlot.toNat with
    | none => Except.error "No inventory item found in slot"
    | some fromRec =>
        (getStackLimitSafe items defaultStackLimit fromRec.1).bind
          (fun stackLimit =>
            match lookupSlot bySlot toSlot.toNat with
            | none =>
                Except.ok (persistExactSnapshot
                  (setSlot (deleteSlot bySlot fromSlot.toNat) toSlot.toNat
                    fromRec))
            | some toRec =>
                if toRec.1 == fromRec.1 then
                  let total := toRec.2 + fromRec.2
                  let merged := min stackLimit total
                  let leftover := total - merged
                  let m1 := setSlot bySlot toSlot.toNat (toRec.1, merged)
                  let m2 :=
                    if leftover > 0 then
                      setSlot m1 fromSlot.toNat (fromRec.1, leftover)
                    else deleteSlot m1 fromSlot.toNat
                  Except.ok (persistExactSnapshot m2)
                else
                  Except.ok (persistExactSnapshot
                    (setSlot (setSlot bySlot fromSlot.toNat toRec)
                      toSlot.toNat fromRec)))))

/-! ### Association-list and totals lemmas -/

lemma lookupRec_cons {α : Type} (k' : String) (v' : α)
    (l : List (String × α)) (k : String) :
    lookupRec ((k', v') :: l) k =
      if k' == k then some v' else lookupRec l k := by
  unfold lookupRec
  by_cases h : k' == k
  · rw [List.find?_cons_of_pos _ (by simpa using h), if_pos h]
    rfl
  · rw [List.find?_cons_of_neg _ (by simpa using h), if_neg h]

lemma lookupRec_setRec_self {α : Type} (l : List (String × α)) (k : String)
    (v : α) : lookupRec (setRec l k v) k = some v := by
  induction l with
  | nil => simp [setRec, lookupRec, List.find?]
  | cons p rest ih =>
      unfold setRec
      by_cases h : p.1 == k
      · rw [if_pos h, lookupRec_cons, if_pos (by simp)]
      · rw [if_neg h, lookupRec_cons, if_neg h]
        exact ih

lemma lookupRec_setRec_ne {α : Type} (l : List (String × α)) (k k' : String)
    (v : α) (h : k' ≠ k) : lookupRec (setRec l k v) k' = lookupRec l k' := by
  have hkk : (k == k') = false := by
    rw [beq_eq_false_iff_ne]
    exact fun he => h he.symm
  induction l with
  | nil =>
      show lookupRec [(k, v)] k' = lookupRec [] k'
      rw [lookupRec_cons, hkk]
      simp [lookupRec, List.find?]
  | cons p rest ih =>
      unfold setRec
      by_cases hp : p.1 == k
      · have hp1 : (p.1 == k') = false := by
          have hpe : p.1 = k := by simpa using hp
          rw [hpe]
          exact hkk
        rw [if_pos hp, lookupRec_cons, lookupRec_cons, hkk, hp1]
        simp
      · rw [if_neg hp, lookupRec_cons, lookupRec_cons]
        by_cases hq : p.1 == k'
        · rw [if_pos hq, if_pos hq]
        · rw [if_neg hq, if_neg hq]
          exact ih

/-- Sum of the quantities of a stack list. -/
def sumStackList (l : List (Nat × Int)) : Int :=
  l.foldl (fun a s => a + s.2) 0

lemma sumStackList_append_one (l : List (Nat × Int)) (x : Nat × Int) :
    sumStackList (l ++ [x]) = sumStackList l + x.2 := by
  unfold sumStackList
  rw [List.foldl_append]
  rfl

lemma sumStackList_getD (o : Option (List (Nat × Int))) :
    sumStackList (o.getD []) = (o.map sumStackList).getD 0 := by
  cases o <;> rfl

lemma lookupRec_totalsFromStacks (m : List (String × List (Nat × Int)))
    (k : String) :
    lookupRec (totalsFromStacks m) k = (lookupRec m k).map sumStackList := by
  induction m with
  | nil => rfl
  | cons p rest ih =>
      unfold totalsFromStacks
      rw [List.map_cons, lookupRec_cons, lookupRec_cons]
      by_cases h : p.1 == k
      · rw [if_pos h, if_pos h]
        rfl
      · rw [if_neg h, if_neg h]
        exact ih

/-- Prefix-sum generalization of the totals fold. -/
lemma getInventoryTotals_foldl_init (rows : List InventoryRow)
    (k : String) (init : Int) :
    rows.foldl (fun a r => if r.itemId == k then a + r.qty else a) init =
      init + getInventoryTotals rows k := by
  induction rows generalizing init with
  | nil => simp [getInventoryTotals]
  | cons r rest ih =>
      have hdef : getInventoryTotals (r :: rest) k =
          List.foldl (fun a x => if x.itemId == k then a + x.qty else a)
            (if r.itemId == k then 0 + r.qty else 0) rest := rfl
      rw [List.foldl_cons, ih, hdef, ih]
      by_cases h : r.itemId == k
      · simp only [h, if_true]
        ring
      · simp only [h, if_false, Bool.false_eq_true]
        ring

lemma getInventoryTotals_cons (r : InventoryRow) (rest : List InventoryRow)
    (k : String) :
    getInventoryTotals (r :: rest) k =
      (if r.itemId == k then r.qty else 0) + getInventoryTotals rest k := by
  have hdef : getInventoryTotals (r :: rest) k =
      List.foldl (fun a x => if x.itemId == k then a + x.qty else a)
        (if r.itemId == k then 0 + r.qty else 0) rest := rfl
  rw [hdef, getInventoryTotals_foldl_init]
  by_cases h : r.itemId == k
  · rw [if_pos h, if_pos h]
    try ring
  · rw [if_neg h, if_neg h]
    try ring

/-- The per-item sum of the stack map built by `buildStacks` is the item's
inventory total. -/
lemma buildStacks_total (rows : List InventoryRow) (k : String) :
    ((lookupRec (buildStacks rows) k).map sumStackList).getD 0 =
      getInventoryTotals rows k := by
  suffices h : ∀ acc : List (String × List (Nat × Int)),
      ((lookupRec (rows.foldl (fun acc r =>
          setRec acc r.itemId
            ((lookupRec acc r.itemId).getD [] ++ [(r.slot, r.qty)])) acc)
        k).map sumStackList).getD 0 =
      ((lookupRec acc k).map sumStackList).getD 0 +
        getInventoryTotals rows k by
    have h0 := h []
    unfold buildStacks
    rw [h0]
    simp [lookupRec, List.find?]
  intro acc
  induction rows generalizing acc with
  | nil => simp [getInventoryTotals]
  | cons r rest ih =>
      rw [List.foldl_cons, ih, getInventoryTotals_cons]
      by_cases h : r.itemId == k
      · have hk : r.itemId = k := by simpa using h
        subst hk
        rw [lookupRec_setRec_self, if_pos (by simp)]
        simp only [Option.map_some', Option.getD_some,
          sumStackList_append_one, sumStackList_getD]
        ring
      · have hk : k ≠ r.itemId := by
          intro hcon
          rw [hcon] at h
          simp at h
        rw [lookupRec_setRec_ne _ _ _ _ hk, if_neg h]
        ring

/-- Sorting by slot permutes the rows, so totals are unchanged. -/
lemma insertBySlot_perm (x : InventoryRow) (l : List InventoryRow) :
    (insertBySlot x l).Perm (x :: l) := by
  induction l with
  | nil => simp [insertBySlot]
  | cons y ys ih =>
      unfold insertBySlot
      split
      · exact List.Perm.refl _
      · exact (List.Perm.cons y ih).trans (List.Perm.swap x y ys)

lemma sortRowsBySlot_perm (l : List InventoryRow) :
    (sortRowsBySlot l).Perm l := by
  induction l with
  | nil => simp [sortRowsBySlot]
  | cons x xs ih =>
      unfold sortRowsBySlot
      exact (insertBySlot_perm x (sortRowsBySlot xs)).trans (ih.cons x)

lemma getInventoryTotals_perm {l l' : List InventoryRow}
    (h : l.Perm l') (k : String) :
    getInventoryTotals l k = getInventoryTotals l' k := by
  induction h with
  | nil => rfl
  | cons r hp ih => rw [getInventoryTotals_cons, getInventoryTotals_cons, ih]
  | swap a b rest =>
      rw [getInventoryTotals_cons, getInventoryTotals_cons,
        getInventoryTotals_cons, getInventoryTotals_cons]
      ring
  | trans h1 h2 ih1 ih2 => rw [ih1, ih2]

/-- The strict pre-check fails whenever some entry's negative change would
drive its item's total below zero (entry keys unique, as for any JS
record). -/
lemma strictCheckLoop_error (totals : List (String × Int))
    (entries : List (String × Int)) (itemId : String) (change : Int)
    (hmem : (itemId, change) ∈ entries) (hneg : change < 0)
    (hnodup : (entries.map Prod.fst).Nodup)
    (hunder : (lookupRec totals itemId).getD 0 + change < 0) :
    ∃ msg, strictCheckLoop totals entries = Except.error msg := by
  induction entries generalizing totals with
  | nil => simp at hmem
  | cons e rest ih =>
      unfold strictCheckLoop
      by_cases hcond : e.2 < 0 ∧ (lookupRec totals e.1).getD 0 + e.2 < 0
      · exact ⟨_, by rw [if_pos hcond]⟩
      · rw [if_neg hcond]
        rcases List.mem_cons.mp hmem with heq | hmemr
        · exfalso
          subst heq
          exact hcond ⟨hneg, hunder⟩
        · have hne : itemId ≠ e.1 := by
            intro hcon
            have h1 : e.1 ∈ rest.map Prod.fst :=
              List.mem_map.mpr ⟨(itemId, change), hmemr, by rw [hcon]⟩
            rw [List.map_cons] at hnodup
            exact (List.nodup_cons.mp hnodup).1 h1
          refine ih _ hmemr ?_ ?_
          · rw [List.map_cons] at hnodup
            exact (List.nodup_cons.mp hnodup).2
          · rw [lookupRec_setRec_ne _ _ _ _ hne]
            exact hunder

/-! ### C5: strict underflow rejects the whole batch -/

/-- C5: in strict mode, a batch in which some item's net signed delta would
drive that item's total below zero is rejected with the
insufficient-quantity error by the pre-check, which runs before the
mutation loop: no stack is created, updated or deleted.  The `hstrict`
hypothesis states that the effective options enable strict mode (either an
explicit `{ strict := true }` or, in this revision, the omitted argument
whose parameter default is `{ strict: true }`).  Delta keys are unique, as
for any JS record. -/
theorem applyInventoryDelta_strict_underflow_rejects
    (items : List ItemDefinition) (defaultStackLimit : Int)
    (rows : List InventoryRow) (deltas : List (String × Int))
    (options : Option ApplyDeltaOptions) (itemId : String) (change : Int)
    (hstrict : (options.getD { strict := some true }).strict.getD false = true)
    (hmem : (itemId, change) ∈ deltas) (hneg : change < 0)
    (hnodup : (deltas.map Prod.fst).Nodup)
    (hunder : getInventoryTotals rows itemId + change < 0) :
    ∃ msg, applyInventoryDelta items defaultStackLimit rows deltas options =
      Except.error msg := by
  unfold applyInventoryDelta
  dsimp only
  have hcz : (change != 0) = true := by
    simp only [bne_iff_ne, ne_eq, decide_eq_true_eq]
    omega
  have hmem' : (itemId, change) ∈ deltas.filter (fun p => p.2 != 0) :=
    List.mem_filter.mpr ⟨hmem, hcz⟩
  have hne : (deltas.filter (fun p => p.2 != 0)).isEmpty = false := by
    cases hl : deltas.filter (fun p => p.2 != 0) with
    | nil => rw [hl] at hmem'; simp at hmem'
    | cons a l => rfl
  rw [if_neg (by simp [hne])]
  rw [hstrict, if_pos rfl]
  have hnodup' : ((deltas.filter (fun p => p.2 != 0)).map Prod.fst).Nodup :=
    List.Sublist.nodup ((List.filter_sublist deltas).map Prod.fst) hnodup
  have htot : (lookupRec (totalsFromStacks
      (buildStacks (sortRowsBySlot rows))) itemId).getD 0 =
      getInventoryTotals rows itemId := by
    rw [lookupRec_totalsFromStacks, buildStacks_total]
    exact getInventoryTotals_perm (sortRowsBySlot_perm rows) itemId
  obtain ⟨msg, hms⟩ := strictCheckLoop_error
    (totalsFromStacks (buildStacks (sortRowsBySlot rows)))
    (deltas.filter (fun p => p.2 != 0)) itemId change hmem' hneg hnodup'
    (by rw [htot]; exact hunder)
  exact ⟨msg, by rw [hms]; rfl⟩

/-- The `log` item fixture: stack limit 5, as in the repository's
configuration. -/
def logItemDef : ItemDefinition := { id := "log", stackLimit := some 5 }

/-- The `plank` item fixture. -/
def plankItemDef : ItemDefinition := { id := "plank", stackLimit := some 5 }

/-- C5 witness: removing 2 logs from a single stack of 1 under
`{ strict: true }` rejects the batch. -/
theorem applyInventoryDelta_strict_underflow_rejects_witness :
    ((some { strict := some true } :
        Option ApplyDeltaOptions).getD { strict := some true }).strict.getD
      false = true ∧
    ("log", (-2 : Int)) ∈ [("log", (-2 : Int))] ∧ (-2 : Int) < 0 ∧
    ([("log", (-2 : Int))].map Prod.fst).Nodup ∧
    getInventoryTotals [InventoryRow.mk 0 "log" 1] "log" + (-2) < 0 ∧
    ∃ msg, applyInventoryDelta [logItemDef] 99 [InventoryRow.mk 0 "log" 1]
      [("log", -2)] (some { strict := some true }) = Except.error msg :=
  ⟨by decide, by decide, by decide, by decide, by decide,
    applyInventoryDelta_strict_underflow_rejects [logItemDef] 99
      [InventoryRow.mk 0 "log" 1] [("log", -2)]
      (some { strict := some true }) "log" (-2)
      (by decide) (by decide) (by decide) (by decide) (by decide)⟩

/-! ### C9: `moveInventoryItem` with `fromSlot = toSlot` destroys items -/

/-- C9 (failing input, evaluated): moving a stack onto its own slot goes
through the same-item merge branch with `to` and `from` denoting the same
record, so the merged write is immediately deleted (full merge) or
overwritten by the leftover: a stack of 2 logs vanishes entirely and a
stack of 3 logs shrinks to 1.  Item totals are not preserved, against the
claim (and against the conservation that every other branch, and the
sibling revision of the function, maintains). -/
theorem moveInventoryItem_self_move_destroys :
    (getInventoryTotals [InventoryRow.mk 0 "log" 2] "log" = 2 ∧
      moveInventoryItem [logItemDef] 99 [InventoryRow.mk 0 "log" 2] 0 0 =
        Except.ok [] ∧
      getInventoryTotals [] "log" = 0) ∧
    (getInventoryTotals [InventoryRow.mk 0 "log" 3] "log" = 3 ∧
      moveInventoryItem [logItemDef] 99 [InventoryRow.mk 0 "log" 3] 0 0 =
        Except.ok [InventoryRow.mk 0 "log" 1] ∧
      getInventoryTotals [InventoryRow.mk 0 "log" 1] "log" = 1) := by
  refine ⟨⟨by decide, rfl, by decide⟩, by decide, rfl, by decide⟩

/-! ### C6: stacking a positive delta into an empty inventory -/

/-- The sequence of chunk sizes produced by the new-stack loop: repeatedly
take `min stackLimit remaining` until nothing remains (with the same
totality guard as `createNewStacks`). -/
def chunkList (stackLimit : Int) (remaining : Int) : List Int :=
  if h : 0 < remaining ∧ 0 < stackLimit then
    min stackLimit remaining :: chunkList stackLimit
      (remaining - min stackLimit remaining)
  else []
termination_by remaining.toNat
decreasing_by
  have h1 : 0 < min stackLimit remaining := by omega
  omega

/-- Chunk sizes paired with consecutive slots starting at `k`. -/
def chunkPairs (k : Nat) : List Int → List (Nat × Int)
  | [] => []
  | c :: cs => (k, c) :: chunkPairs (k + 1) cs

lemma nextFreeSlot_range (k : Nat) : nextFreeSlot (List.range k) = k := by
  unfold nextFreeSlot
  rw [List.length_range, List.range_succ, List.filter_append]
  have h1 : (List.range k).filter
      (fun s => !((List.range k).contains s)) = [] := by
    simp
  have h2 : ([k].filter (fun s => !((List.range k).contains s))) = [k] := by
    simp [List.mem_range]
  rw [h1, h2]
  rfl

lemma createNewStacks_range (L : Int) (hL : 0 < L) (q : Int) (k : Nat) :
    createNewStacks L (List.range k) q =
      (chunkPairs k (chunkList L q),
        List.range (k + (chunkList L q).length)) := by
  suffices h : ∀ n : Nat, ∀ q : Int, q.toNat = n → ∀ k : Nat,
      createNewStacks L (List.range k) q =
        (chunkPairs k (chunkList L q),
          List.range (k + (chunkList L q).length)) from h q.toNat q rfl k
  intro n
  induction n using Nat.strong_induction_on with
  | _ n ih =>
      intro q hqn k
      unfold createNewStacks chunkList
      by_cases hc : 0 < q ∧ 0 < L
      · rw [dif_pos hc, dif_pos hc]
        have hmin : 0 < min L q := by omega
        have hlt : (q - min L q).toNat < n := by omega
        have hrec := ih _ hlt (q - min L q) rfl (k + 1)
        dsimp only
        rw [nextFreeSlot_range,
          show List.range k ++ [k] = List.range (k + 1) from
            (List.range_succ k).symm, hrec]
        dsimp only
        simp only [chunkPairs, List.length_cons]
        exact congrArg₂ Prod.mk rfl (congrArg List.range (by omega))
      · rw [dif_neg hc, dif_neg hc]
        unfold chunkPairs
        simp

lemma chunkList_length (L : Int) (hL : 0 < L) :
    ∀ n : Nat, ∀ q : Int, q.toNat = n → 0 < q →
      (chunkList L q).length = (q.toNat + L.toNat - 1) / L.toNat := by
  intro n
  induction n using Nat.strong_induction_on with
  | _ n ih =>
      intro q hqn hq
      unfold chunkList
      rw [dif_pos ⟨hq, hL⟩]
      by_cases hqL : q ≤ L
      · have hmin : min L q = q := by omega
        rw [hmin]
        have hnil : chunkList L (q - q) = [] := by
          unfold chunkList
          rw [dif_neg (by omega)]
        rw [hnil]
        have h1 : 1 * L.toNat ≤ q.toNat + L.toNat - 1 := by omega
        have h2 : q.toNat + L.toNat - 1 < (1 + 1) * L.toNat := by omega
        rw [List.length_cons, List.length_nil, Nat.div_eq_of_lt_le h1 h2]
      · have hmin : min L q = L := by omega
        rw [hmin]
        have hlt : (q - L).toNat < n := by omega
        have hrec := ih _ hlt (q - L) rfl (by omega)
        rw [List.length_cons, hrec]
        have harith : q.toNat + L.toNat - 1 =
            ((q - L).toNat + L.toNat - 1) + L.toNat := by omega
        rw [harith, Nat.add_div_right _ (by omega : 0 < L.toNat)]

lemma chunkList_bounds (L : Int) (hL : 0 < L) :
    ∀ n : Nat, ∀ q : Int, q.toNat = n →
      ∀ c ∈ chunkList L q, 0 < c ∧ c ≤ L := by
  intro n
  induction n using Nat.strong_induction_on with
  | _ n ih =>
      intro q hqn c hc
      unfold chunkList at hc
      by_cases hcond : 0 < q ∧ 0 < L
      · rw [dif_pos hcond] at hc
        rcases List.mem_cons.mp hc with hhd | htl
        · subst hhd
          constructor <;> omega
        · exact ih ((q - min L q).toNat) (by omega) _ rfl c htl
      · rw [dif_neg hcond] at hc
        simp at hc

lemma chunkList_take_floor (L : Int) (hL : 0 < L) :
    ∀ n : Nat, ∀ q : Int, q.toNat = n →
      (chunkList L q).take (q.toNat / L.toNat) =
        List.replicate (q.toNat / L.toNat) L := by
  intro n
  induction n using Nat.strong_induction_on with
  | _ n ih =>
      intro q hqn
      by_cases hq : 0 < q
      · by_cases hqL : q < L
        · have hdiv : q.toNat / L.toNat = 0 := Nat.div_eq_of_lt (by omega)
          rw [hdiv]
          rfl
        · have hmin : min L q = L := by omega
          unfold chunkList
          rw [dif_pos ⟨hq, hL⟩, hmin]
          have harith : q.toNat = (q - L).toNat + L.toNat := by omega
          have hdiv : q.toNat / L.toNat = (q - L).toNat / L.toNat + 1 := by
            rw [harith, Nat.add_div_right _ (by omega : 0 < L.toNat)]
          have hlt : (q - L).toNat < n := by omega
          rw [hdiv, List.take_succ_cons, List.replicate_succ,
            ih _ hlt (q - L) rfl]
      · have hnil : chunkList L q = [] := by
          unfold chunkList
          rw [dif_neg (by omega)]
        have hdiv : q.toNat / L.toNat = 0 := by
          have hz : q.toNat = 0 := by omega
          rw [hz]
          exact Nat.zero_div _
        rw [hnil, hdiv]
        rfl

lemma chunkPairs_length (k : Nat) (cs : List Int) :
    (chunkPairs k cs).length = cs.length := by
  induction cs generalizing k with
  | nil => rfl
  | cons c cs ih => simp [chunkPairs, ih]

lemma chunkPairs_map_slot (item : String) (k : Nat) (cs : List Int) :
    ((chunkPairs k cs).map
      (fun s => InventoryRow.mk s.1 item s.2)).map (fun r => r.slot) =
      List.range' k cs.length := by
  induction cs generalizing k with
  | nil => rfl
  | cons c cs ih =>
      rw [List.length_cons, List.range'_succ]
      simp only [chunkPairs, List.map_cons]
      rw [ih (k + 1)]

lemma chunkPairs_map_qty (item : String) (k : Nat) (cs : List Int) :
    ((chunkPairs k cs).map
      (fun s => InventoryRow.mk s.1 item s.2)).map (fun r => r.qty) = cs := by
  induction cs generalizing k with
  | nil => rfl
  | cons c cs ih =>
      simp only [chunkPairs, List.map_cons]
      exact congrArg₂ List.cons rfl (ih (k + 1))

lemma chunkPairs_mem (item : String) (k : Nat) (cs : List Int) :
    ∀ r ∈ (chunkPairs k cs).map (fun s => InventoryRow.mk s.1 item s.2),
      r.itemId = item ∧ r.qty ∈ cs := by
  induction cs generalizing k with
  | nil => intro r hr; simp [chunkPairs] at hr
  | cons c cs ih =>
      intro r hr
      simp only [chunkPairs, List.map_cons, List.mem_cons] at hr
      rcases hr with hhd | htl
      · subst hhd
        exact ⟨rfl, List.mem_cons_self _ _⟩
      · rcases ih (k + 1) r htl with ⟨h1, h2⟩
        exact ⟨h1, List.mem_cons_of_mem _ h2⟩

lemma chunkPairs_chain (item : String) (k : Nat) (cs : List Int) :
    List.Chain' (fun a b : InventoryRow => a.slot ≤ b.slot)
      ((chunkPairs k cs).map (fun s => InventoryRow.mk s.1 item s.2)) := by
  induction cs generalizing k with
  | nil => exact List.chain'_nil
  | cons c cs ih =>
      cases cs with
      | nil => exact List.chain'_singleton _
      | cons c2 cs2 =>
          simp only [chunkPairs, List.map_cons]
          exact List.chain'_cons.mpr ⟨Nat.le_succ k, by
            have hch := ih (k + 1)
            simpa only [chunkPairs, List.map_cons] using hch⟩

lemma sortRowsBySlot_eq_self : ∀ l : List InventoryRow,
    List.Chain' (fun a b : InventoryRow => a.slot ≤ b.slot) l →
    sortRowsBySlot l = l := by
  intro l
  induction l with
  | nil => intro h; rfl
  | cons x xs ih =>
      intro h
      show insertBySlot x (sortRowsBySlot xs) = x :: xs
      rw [ih h.tail]
      cases xs with
      | nil => rfl
      | cons y ys =>
          unfold insertBySlot
          rw [if_pos (List.chain'_cons.mp h).1]

lemma rowsOfStacks_single (item : String) (sl : List (Nat × Int)) :
    rowsOfStacks [(item, sl)] =
      sortRowsBySlot (sl.map (fun s => InventoryRow.mk s.1 item s.2)) := by
  unfold rowsOfStacks
  simp

lemma strictCheckLoop_single_pos (totals : List (String × Int))
    (item : String) (q : Int) (hq : 0 < q) :
    strictCheckLoop totals [(item, q)] = Except.ok () := by
  unfold strictCheckLoop
  rw [if_neg (by intro hcon; omega)]
  unfold strictCheckLoop
  rfl

lemma applyEntry_empty_pos (items : List ItemDefinition)
    (defaultStackLimit : Int) (strict : Bool) (item : String)
    (idef : ItemDefinition) (L qty : Int)
    (hfind : items.find? (fun d => d.id == item) = some idef)
    (hlim : idef.stackLimit = some L) (hL : 0 < L) (hq : 0 < qty) :
    applyEntry items defaultStackLimit strict ([], []) (item, qty) =
      Except.ok ([(item, chunkPairs 0 (chunkList L qty))],
        List.range (chunkList L qty).length) := by
  unfold applyEntry getStackLimitSafe requireItemDefinition
  rw [hfind]
  simp only [Except.map, Except.bind, hlim, Option.getD_some]
  rw [if_neg (by simp only [beq_iff_eq]; omega), if_pos (by exact hq)]
  simp only [lookupRec, List.find?_nil, Option.map_none', Option.getD_none,
    topUpStacks]
  rw [show ([] : List Nat) = List.range 0 from rfl,
    createNewStacks_range L hL qty 0]
  simp only [Nat.zero_add, setRec, List.nil_append]

/-- C6: on an empty inventory, a single positive delta of `qty` for an item
whose stack limit is `L > 0` succeeds and produces `ceil(qty/L)` stacks of
that item at the consecutive slots `0, 1, …` in ascending order, each stack
positive and at most `L`, with the first `floor(qty/L)` stacks holding
exactly `L`. -/
theorem applyInventoryDelta_stacking
    (items : List ItemDefinition) (defaultStackLimit : Int) (item : String)
    (idef : ItemDefinition) (L qty : Int)
    (options : Option ApplyDeltaOptions)
    (hfind : items.find? (fun d => d.id == item) = some idef)
    (hlim : idef.stackLimit = some L) (hL : 0 < L) (hq : 0 < qty) :
    ∃ rows, applyInventoryDelta items defaultStackLimit [] [(item, qty)]
        options = Except.ok rows ∧
      rows.length = (qty.toNat + L.toNat - 1) / L.toNat ∧
      rows.map (fun r => r.slot) = List.range rows.length ∧
      (∀ r ∈ rows, r.itemId = item ∧ 0 < r.qty ∧ r.qty ≤ L) ∧
      (rows.map (fun r => r.qty)).take (qty.toNat / L.toNat) =
        List.replicate (qty.toNat / L.toNat) L := by
  refine ⟨(chunkPairs 0 (chunkList L qty)).map
      (fun s => InventoryRow.mk s.1 item s.2), ?_, ?_, ?_, ?_, ?_⟩
  · unfold applyInventoryDelta
    have hfil : List.filter (fun p => p.2 != 0) [(item, qty)] =
        [(item, qty)] := by
      have hne : (qty != 0) = true := by
        simp only [bne_iff_ne, ne_eq]
        omega
      simp [hne]
    simp only [hfil, List.isEmpty_cons, Bool.false_eq_true, if_false]
    have hpre : (if ((options.getD { strict := some true }).strict.getD false)
        then strictCheckLoop
          (totalsFromStacks (buildStacks (sortRowsBySlot
            ([] : List InventoryRow)))) [(item, qty)]
        else Except.ok ()) = Except.ok () := by
      by_cases hB : ((options.getD { strict := some true }).strict.getD false)
          = true
      · rw [if_pos hB]
        exact strictCheckLoop_single_pos _ item qty hq
      · rw [if_neg hB]
    rw [hpre]
    show (applyEntries items defaultStackLimit
        ((options.getD { strict := some true }).strict.getD false)
        ([], []) [(item, qty)]).map (fun st => rowsOfStacks st.1) = _
    unfold applyEntries
    rw [applyEntry_empty_pos items defaultStackLimit _ item idef L qty
      hfind hlim hL hq]
    show Except.ok (rowsOfStacks
      [(item, chunkPairs 0 (chunkList L qty))]) = _
    rw [rowsOfStacks_single,
      sortRowsBySlot_eq_self _ (chunkPairs_chain item 0 (chunkList L qty))]
  · rw [List.length_map, chunkPairs_length,
      chunkList_length L hL qty.toNat qty rfl hq]
  · rw [chunkPairs_map_slot, List.length_map, chunkPairs_length,
      List.range_eq_range']
  · intro r hr
    rcases chunkPairs_mem item 0 (chunkList L qty) r hr with ⟨hid, hmem⟩
    rcases chunkList_bounds L hL qty.toNat qty rfl r.qty hmem with ⟨h1, h2⟩
    exact ⟨hid, h1, h2⟩
  · rw [chunkPairs_map_qty, chunkList_take_floor L hL qty.toNat qty rfl]

/-- C6 witness: 12 logs at stack limit 5 on an empty inventory yield the
stacks `[5, 5, 2]` at slots `[0, 1, 2]`. -/
theorem applyInventoryDelta_stacking_witness :
    ([logItemDef].find? (fun d => d.id == "log") = some logItemDef) ∧
    (logItemDef.stackLimit = some 5) ∧ (0 : Int) < 5 ∧ (0 : Int) < 12 ∧
    ∃ rows, applyInventoryDelta [logItemDef] 99 [] [("log", 12)] none =
        Except.ok rows ∧
      rows.length = ((12 : Int).toNat + (5 : Int).toNat - 1) /
        (5 : Int).toNat ∧
      rows.map (fun r => r.slot) = List.range rows.length ∧
      (∀ r ∈ rows, r.itemId = "log" ∧ 0 < r.qty ∧ r.qty ≤ 5) ∧
      (rows.map (fun r => r.qty)).take ((12 : Int).toNat / (5 : Int).toNat) =
        List.replicate ((12 : Int).toNat / (5 : Int).toNat) 5 :=
  ⟨by decide, by decide, by decide, by decide,
    applyInventoryDelta_stacking [logItemDef] 99 "log" logItemDef 5 12 none
      (by decide) (by decide) (by decide) (by decide)⟩

/-! ### C7: `mergeCompletionEffects` of the loop engine -/

/-- `TaskCompletionEffect`: optional tav XP, optional skill XP, optional
inventory delta record (`tavXp?: number; skillXp?: number;
inventory?: InventoryDelta`). -/
structure TaskCompletionEffect where
  tavXp : Option Int
  skillXp : Option Int
  inventory : Option (List (String × Int))
deriving Repr, DecidableEq

/-- The mutable accumulator of `mergeCompletionEffects`' loop. -/
structure MergeAcc where
  tavXpTotal : Int
  skillXpTotal : Int
  sawTavXp : Bool
  sawSkillXp : Bool
  inventoryTotals : List (String × Int)
  sawInventory : Bool

/-- One inventory entry of one fragment folded into the running totals:
`if (!delta) continue; totals[itemId] = (totals[itemId] ?? 0) + delta`. -/
def applyInvUpdate (t : List (String × Int)) (p : String × Int) :
    List (String × Int) :=
  if p.2 == 0 then t
  else setRec t p.1 ((lookupRec t p.1).getD 0 + p.2)

/-- One iteration of the `for (const effect of effects)` loop: skip null
fragments, accumulate numeric fields with their `saw` flags, fold the
fragment's inventory entries into the totals. -/
def mergeStep (acc : MergeAcc) (effect : Option TaskCompletionEffect) :
    MergeAcc :=
  match effect with
  | none => acc
  | some e =>
      let acc1 :=
        match e.tavXp with
        | some x =>
            { acc with tavXpTotal := acc.tavXpTotal + x, sawTavXp := true }
        | none => acc
      let acc2 :=
        match e.skillXp with
        | some x =>
            { acc1 with skillXpTotal := acc1.skillXpTotal + x, sawSkillXp := true }
        | none => acc1
      match e.inventory with
      | some inv =>
          { acc2 with sawInventory := true, inventoryTotals := inv.foldl applyInvUpdate acc2.inventoryTotals }
      | none => acc2

/-- `mergeCompletionEffects` of the loop engine: fold all fragments, then
emit each field only when it was seen and its total is non-zero (the
inventory keeps only non-zero item totals), returning `null` when no field
survives. -/
def mergeCompletionEffects (effects : List (Option TaskCompletionEffect)) :
    Option TaskCompletionEffect :=
  let acc := effects.foldl mergeStep
    { tavXpTotal := 0, skillXpTotal := 0, sawTavXp := false,
      sawSkillXp := false, inventoryTotals := [], sawInventory := false }
  let cleaned := acc.inventoryTotals.filter (fun p => p.2 != 0)
  let result : TaskCompletionEffect :=
    { tavXp :=
        if acc.sawTavXp = true ∧ acc.tavXpTotal ≠ 0 then some acc.tavXpTotal
        else none,
      skillXp :=
        if acc.sawSkillXp = true ∧ acc.skillXpTotal ≠ 0 then
          some acc.skillXpTotal
        else none,
      inventory :=
        if acc.sawInventory = true then
          (if 0 < cleaned.length then some cleaned else none)
        else none }
  if result.tavXp ≠ none ∨ result.skillXp ≠ none ∨ result.inventory ≠ none
  then some result
  else none

/-! #### Observables of a merge result -/

/-- The tav-XP field of a possibly-null effect. -/
def effTavXp (o : Option TaskCompletionEffect) : Option Int :=
  o.bind (fun e => e.tavXp)

/-- The skill-XP field of a possibly-null effect. -/
def effSkillXp (o : Option TaskCompletionEffect) : Option Int :=
  o.bind (fun e => e.skillXp)

/-- The inventory entry of a possibly-null effect for one item. -/
def effInvLookup (o : Option TaskCompletionEffect) (k : String) :
    Option Int :=
  (o.bind (fun e => e.inventory)).bind (fun inv => lookupRec inv k)

/-- Record-level equivalence of two possibly-null effects: equal XP fields
and pointwise-equal inventory records (JS object key order is irrelevant). -/
def EffectEquiv (a b : Option TaskCompletionEffect) : Prop :=
  effTavXp a = effTavXp b ∧ effSkillXp a = effSkillXp b ∧
    ∀ k, effInvLookup a k = effInvLookup b k

lemma effectEquiv_symm {a b : Option TaskCompletionEffect}
    (h : EffectEquiv a b) : EffectEquiv b a :=
  ⟨h.1.symm, h.2.1.symm, fun k => (h.2.2 k).symm⟩

lemma effectEquiv_trans {a b c : Option TaskCompletionEffect}
    (h1 : EffectEquiv a b) (h2 : EffectEquiv b c) : EffectEquiv a c :=
  ⟨h1.1.trans h2.1, h1.2.1.trans h2.2.1,
    fun k => (h1.2.2 k).trans (h2.2.2 k)⟩

/-! #### Fragment-level observables -/

/-- All tav-XP contributions, in fragment order. -/
def tavContribs (l : List (Option TaskCompletionEffect)) : List Int :=
  l.filterMap (fun o => o.bind (fun e => e.tavXp))

/-- All skill-XP contributions, in fragment order. -/
def skillContribs (l : List (Option TaskCompletionEffect)) : List Int :=
  l.filterMap (fun o => o.bind (fun e => e.skillXp))

/-- All inventory entries of all fragments, in order. -/
def invUpdates (l : List (Option TaskCompletionEffect)) :
    List (String × Int) :=
  (l.filterMap (fun o => o.bind (fun e => e.inventory))).flatten

/-- Did any fragment carry a tav-XP field? -/
def sawTav (l : List (Option TaskCompletionEffect)) : Bool :=
  l.any (fun o => (o.bind (fun e => e.tavXp)).isSome)

/-- Did any fragment carry a skill-XP field? -/
def sawSkill (l : List (Option TaskCompletionEffect)) : Bool :=
  l.any (fun o => (o.bind (fun e => e.skillXp)).isSome)

/-- Did any fragment carry an inventory record? -/
def sawInv (l : List (Option TaskCompletionEffect)) : Bool :=
  l.any (fun o => (o.bind (fun e => e.inventory)).isSome)

/-- Does the entry update item `k` (right key, non-zero delta)? -/
def touchKey (k : String) (p : String × Int) : Bool :=
  p.1 == k && p.2 != 0

/-- The summed delta of all effective updates for item `k`. -/
def invContribTotal (us : List (String × Int)) (k : String) : Int :=
  ((us.filter (touchKey k)).map (fun p => p.2)).sum

/-- Is item `k` effectively updated at all? -/
def invTouched (us : List (String × Int)) (k : String) : Bool :=
  us.any (touchKey k)

/-- The fold of `mergeStep` accumulates sums, `saw` flags, and the flat
sequence of inventory updates. -/
lemma foldl_mergeStep_char (l : List (Option TaskCompletionEffect))
    (a : MergeAcc) :
    l.foldl mergeStep a =
      { tavXpTotal := a.tavXpTotal + (tavContribs l).sum,
        skillXpTotal := a.skillXpTotal + (skillContribs l).sum,
        sawTavXp := a.sawTavXp || sawTav l,
        sawSkillXp := a.sawSkillXp || sawSkill l,
        inventoryTotals :=
          (invUpdates l).foldl applyInvUpdate a.inventoryTotals,
        sawInventory := a.sawInventory || sawInv l } := by
  induction l generalizing a with
  | nil =>
      simp [tavContribs, skillContribs, invUpdates, sawTav, sawSkill, sawInv]
  | cons o l ih =>
      rw [List.foldl_cons, ih (mergeStep a o)]
      cases o with
      | none =>
          simp [mergeStep, tavContribs, skillContribs, invUpdates, sawTav,
            sawSkill, sawInv]
      | some e =>
          rcases e with ⟨tx, sx, iv⟩
          cases tx <;> cases sx <;> cases iv <;>
            simp [mergeStep, tavContribs, skillContribs, invUpdates, sawTav,
              sawSkill, sawInv, List.foldl_append, Int.add_assoc,
              Bool.or_assoc]

/-! #### Key uniqueness of the running totals -/

/-- The keys of an association list. -/
def keysOf {α : Type} (l : List (String × α)) : List String :=
  l.map Prod.fst

lemma mem_keys_setRec {α : Type} :
    ∀ (l : List (String × α)) (k : String) (v : α) (k' : String),
      k' ∈ keysOf (setRec l k v) → k' ∈ keysOf l ∨ k' = k := by
  intro l
  induction l with
  | nil =>
      intro k v k' h
      simp [setRec, keysOf] at h
      exact Or.inr h
  | cons p rest ih =>
      intro k v k' h
      rcases p with ⟨pk, pv⟩
      by_cases hk : (pk == k) = true
      · simp only [setRec, if_pos hk, keysOf, List.map_cons] at h
        rcases List.mem_cons.mp h with h1 | h2
        · exact Or.inr h1
        · exact Or.inl (List.mem_cons_of_mem _ h2)
      · simp only [setRec, if_neg hk, keysOf, List.map_cons] at h
        rcases List.mem_cons.mp h with h1 | h2
        · exact Or.inl (h1 ▸ List.mem_cons_self _ _)
        · rcases ih k v k' h2 with h3 | h4
          · exact Or.inl (List.mem_cons_of_mem _ h3)
          · exact Or.inr h4

lemma setRec_nodup {α : Type} :
    ∀ (l : List (String × α)) (k : String) (v : α),
      (keysOf l).Nodup → (keysOf (setRec l k v)).Nodup := by
  intro l
  induction l with
  | nil =>
      intro k v h
      simp [setRec, keysOf]
  | cons p rest ih =>
      intro k v h
      rcases p with ⟨pk, pv⟩
      simp only [keysOf, List.map_cons, List.nodup_cons] at h
      by_cases hk : (pk == k) = true
      · have hpk : pk = k := by simpa using hk
        simp only [setRec, if_pos hk, keysOf, List.map_cons, List.nodup_cons]
        refine ⟨?_, h.2⟩
        rw [← hpk]
        exact h.1
      · simp only [setRec, if_neg hk, keysOf, List.map_cons, List.nodup_cons]
        refine ⟨?_, ih k v h.2⟩
        intro hmem
        rcases mem_keys_setRec rest k v pk hmem with h1 | h2
        · exact h.1 h1
        · rw [h2] at hk
          exact hk (by simp)

lemma applyInvUpdate_nodup (t : List (String × Int)) (p : String × Int)
    (h : (keysOf t).Nodup) : (keysOf (applyInvUpdate t p)).Nodup := by
  unfold applyInvUpdate
  by_cases hz : (p.2 == 0) = true
  · rw [if_pos hz]
    exact h
  · rw [if_neg hz]
    exact setRec_nodup t p.1 _ h

lemma foldl_applyInvUpdate_nodup :
    ∀ (us : List (String × Int)) (t : List (String × Int)),
      (keysOf t).Nodup → (keysOf (us.foldl applyInvUpdate t)).Nodup := by
  intro us
  induction us with
  | nil => intro t h; exact h
  | cons p us ih =>
      intro t h
      exact ih _ (applyInvUpdate_nodup t p h)

/-! #### The totals record computed by the update fold -/

lemma lookup_foldl_applyInvUpdate :
    ∀ (us : List (String × Int)) (t : List (String × Int)) (k : String),
      lookupRec (us.foldl applyInvUpdate t) k =
        if ((lookupRec t k).isSome || invTouched us k) = true then
          some ((lookupRec t k).getD 0 + invContribTotal us k)
        else none := by
  intro us
  induction us with
  | nil =>
      intro t k
      simp only [List.foldl_nil, invTouched, List.any_nil, Bool.or_false,
        invContribTotal, List.filter_nil, List.map_nil, List.sum_nil,
        Int.add_zero]
      cases h : lookupRec t k with
      | none => simp [h]
      | some v => simp [h]
  | cons p us ih =>
      intro t k
      rw [List.foldl_cons, ih]
      by_cases hz : (p.2 == 0) = true
      · have hz0 : p.2 = 0 := by simpa using hz
        have htk : touchKey k p = false := by simp [touchKey, hz0]
        have h1 : invTouched (p :: us) k = invTouched us k := by
          simp [invTouched, htk]
        have h2 : invContribTotal (p :: us) k = invContribTotal us k := by
          simp [invContribTotal, List.filter_cons, htk]
        rw [show applyInvUpdate t p = t from by rw [applyInvUpdate, if_pos hz],
          h1, h2]
      · rw [show applyInvUpdate t p =
            setRec t p.1 ((lookupRec t p.1).getD 0 + p.2) from by
          rw [applyInvUpdate, if_neg hz]]
        by_cases hk : (p.1 == k) = true
        · have hke : p.1 = k := by simpa using hk
          have hz2 : p.2 ≠ 0 := by simpa using hz
          have htk : touchKey k p = true := by simp [touchKey, hk, hz2]
          have h1 : invTouched (p :: us) k = true := by
            simp [invTouched, htk]
          have h2 : invContribTotal (p :: us) k =
              p.2 + invContribTotal us k := by
            simp [invContribTotal, List.filter_cons, htk]
          rw [hke, lookupRec_setRec_self, h1, h2]
          rw [if_pos (by simp), if_pos (by simp)]
          simp only [Option.getD_some, Int.add_assoc]
        · have hke : p.1 ≠ k := by simpa using hk
          have htk : touchKey k p = false := by simp [touchKey, hk]
          have h1 : invTouched (p :: us) k = invTouched us k := by
            simp [invTouched, htk]
          have h2 : invContribTotal (p :: us) k = invContribTotal us k := by
            simp [invContribTotal, List.filter_cons, htk]
          rw [lookupRec_setRec_ne t p.1 k _ (fun he => hke he.symm), h1, h2]

/-! #### Characterizing the merge result -/

lemma filterMap_nil_of_no_some {α β : Type} (f : α → Option β) :
    ∀ l : List α, l.any (fun a => (f a).isSome) = false →
      l.filterMap f = [] := by
  intro l
  induction l with
  | nil => intro h; rfl
  | cons a l ih =>
      intro h
      rw [List.any_cons, Bool.or_eq_false_iff] at h
      cases hf : f a with
      | none =>
          simp only [List.filterMap_cons, hf]
          exact ih h.2
      | some b =>
          exfalso
          rw [hf] at h
          simp at h

lemma sum_tavContribs_of_not_saw (l : List (Option TaskCompletionEffect))
    (h : sawTav l = false) : (tavContribs l).sum = 0 := by
  rw [tavContribs, filterMap_nil_of_no_some _ l h]
  rfl

lemma sum_skillContribs_of_not_saw (l : List (Option TaskCompletionEffect))
    (h : sawSkill l = false) : (skillContribs l).sum = 0 := by
  rw [skillContribs, filterMap_nil_of_no_some _ l h]
  rfl

lemma invUpdates_of_not_saw (l : List (Option TaskCompletionEffect))
    (h : sawInv l = false) : invUpdates l = [] := by
  rw [invUpdates, filterMap_nil_of_no_some _ l h]
  rfl

lemma any_perm {α : Type} {l l' : List α} (hp : l.Perm l') (f : α → Bool) :
    l.any f = l'.any f := by
  cases hb : l'.any f
  · rw [List.any_eq_false] at hb ⊢
    intro x hx
    exact hb x (hp.mem_iff.mp hx)
  · rw [List.any_eq_true] at hb ⊢
    obtain ⟨x, hx, hfx⟩ := hb
    exact ⟨x, hp.mem_iff.mpr hx, hfx⟩

lemma inv_untouched_of_not_mem (us : List (String × Int)) (k : String)
    (h : k ∉ keysOf us) :
    invContribTotal us k = 0 ∧ invTouched us k = false := by
  have hall : ∀ p ∈ us, touchKey k p = false := by
    intro p hp
    have hne : p.1 ≠ k := fun he => h (he ▸ List.mem_map_of_mem Prod.fst hp)
    simp [touchKey, hne]
  constructor
  · rw [invContribTotal,
      List.filter_eq_nil_iff.mpr (fun p hp => by simp [hall p hp])]
    rfl
  · rw [invTouched, List.any_eq_false]
    intro p hp
    simp [hall p hp]

lemma contrib_zero_of_untouched (us : List (String × Int)) (k : String)
    (h : invTouched us k = false) : invContribTotal us k = 0 := by
  rw [invTouched, List.any_eq_false] at h
  rw [invContribTotal,
    List.filter_eq_nil_iff.mpr (fun p hp => by
      have hp2 := h p hp
      simpa using hp2)]
  rfl

lemma lookupRec_none_of_not_mem {α : Type} :
    ∀ (l : List (String × α)) (k : String), k ∉ keysOf l →
      lookupRec l k = none := by
  intro l
  induction l with
  | nil => intro k h; rfl
  | cons p rest ih =>
      intro k h
      rcases p with ⟨pk, pv⟩
      simp only [keysOf, List.map_cons, List.mem_cons] at h
      push_neg at h
      rw [lookupRec_cons,
        if_neg (fun hb => h.1 ((by simpa using hb : pk = k)).symm)]
      exact ih k h.2

lemma lookupRec_of_mem_nodup {α : Type} :
    ∀ (l : List (String × α)), (keysOf l).Nodup →
      ∀ p ∈ l, lookupRec l p.1 = some p.2 := by
  intro l
  induction l with
  | nil => intro hnd p hp; simp at hp
  | cons q rest ih =>
      intro hnd p hp
      rcases q with ⟨qk, qv⟩
      simp only [keysOf, List.map_cons, List.nodup_cons] at hnd
      rcases List.mem_cons.mp hp with hh | ht
      · subst hh
        rw [lookupRec_cons, if_pos (by simp)]
      · have hkm : p.1 ∈ keysOf rest := List.mem_map_of_mem Prod.fst ht
        have hne : ¬((qk == p.1) = true) :=
          fun hb => hnd.1 ((by simpa using hb : qk = p.1) ▸ hkm)
        rw [lookupRec_cons, if_neg hne]
        exact ih hnd.2 p ht

lemma lookupRec_filter_nonzero :
    ∀ (t : List (String × Int)), (keysOf t).Nodup → ∀ k : String,
      lookupRec (t.filter (fun p => p.2 != 0)) k =
        (lookupRec t k).bind (fun v => if v ≠ 0 then some v else none) := by
  intro t
  induction t with
  | nil => intro h k; rfl
  | cons p rest ih =>
      intro h k
      rcases p with ⟨pk, pv⟩
      simp only [keysOf, List.map_cons, List.nodup_cons] at h
      by_cases hk : (pk == k) = true
      · have hke : pk = k := by simpa using hk
        by_cases hz : (pv != 0) = true
        · rw [List.filter_cons, if_pos hz, lookupRec_cons, lookupRec_cons,
            if_pos hk, if_pos hk]
          have hnz : pv ≠ 0 := by simpa using hz
          simp [hnz]
        · have hz0 : pv = 0 := by simpa using hz
          rw [List.filter_cons, if_neg hz, lookupRec_cons, if_pos hk]
          have hnone : lookupRec rest k = none :=
            lookupRec_none_of_not_mem rest k (hke ▸ h.1)
          rw [ih h.2 k, hnone]
          simp [hz0]
      · rw [List.filter_cons]
        by_cases hz : (pv != 0) = true
        · rw [if_pos hz, lookupRec_cons, lookupRec_cons, if_neg hk, if_neg hk]
          exact ih h.2 k
        · rw [if_neg hz, lookupRec_cons, if_neg hk]
          exact ih h.2 k

/-- `mergeCompletionEffects` written through the fragment observables. -/
lemma mergeCompletionEffects_eq (l : List (Option TaskCompletionEffect)) :
    mergeCompletionEffects l =
      (let T := if sawTav l = true ∧ (tavContribs l).sum ≠ 0 then
          some ((tavContribs l).sum) else none
       let S := if sawSkill l = true ∧ (skillContribs l).sum ≠ 0 then
          some ((skillContribs l).sum) else none
       let cleaned := ((invUpdates l).foldl applyInvUpdate
          ([] : List (String × Int))).filter (fun p => p.2 != 0)
       let V := if sawInv l = true then
          (if 0 < cleaned.length then some cleaned else none) else none
       if T ≠ none ∨ S ≠ none ∨ V ≠ none then
         some (TaskCompletionEffect.mk T S V)
       else none) := by
  unfold mergeCompletionEffects
  rw [foldl_mergeStep_char]
  dsimp only
  simp only [zero_add, Bool.false_or]

lemma assembled_char (T S : Option Int) (V : Option (List (String × Int))) :
    effTavXp (if T ≠ none ∨ S ≠ none ∨ V ≠ none then
        some (TaskCompletionEffect.mk T S V) else none) = T ∧
    effSkillXp (if T ≠ none ∨ S ≠ none ∨ V ≠ none then
        some (TaskCompletionEffect.mk T S V) else none) = S ∧
    ∀ k, effInvLookup (if T ≠ none ∨ S ≠ none ∨ V ≠ none then
        some (TaskCompletionEffect.mk T S V) else none) k =
      V.bind (fun inv => lookupRec inv k) := by
  by_cases h : T ≠ none ∨ S ≠ none ∨ V ≠ none
  · rw [if_pos h]
    exact ⟨rfl, rfl, fun k => rfl⟩
  · rw [if_neg h]
    push_neg at h
    refine ⟨h.1.symm, h.2.1.symm, fun k => ?_⟩
    rw [h.2.2]
    rfl

lemma lookup_cleaned (l : List (Option TaskCompletionEffect)) (k : String) :
    lookupRec (((invUpdates l).foldl applyInvUpdate
        ([] : List (String × Int))).filter (fun p => p.2 != 0)) k =
      if invTouched (invUpdates l) k = true ∧
          invContribTotal (invUpdates l) k ≠ 0 then
        some (invContribTotal (invUpdates l) k)
      else none := by
  rw [lookupRec_filter_nonzero _
      (foldl_applyInvUpdate_nodup _ _ (by simp [keysOf])),
    lookup_foldl_applyInvUpdate]
  simp only [show lookupRec ([] : List (String × Int)) k = none from rfl,
    Option.isSome_none, Bool.false_or, Option.getD_none, zero_add]
  by_cases ht : invTouched (invUpdates l) k = true
  · rw [if_pos ht]
    show (if invContribTotal (invUpdates l) k ≠ 0 then
        some (invContribTotal (invUpdates l) k) else none) = _
    by_cases hc : invContribTotal (invUpdates l) k ≠ 0
    · rw [if_pos hc, if_pos ⟨ht, hc⟩]
    · rw [if_neg hc, if_neg (fun hh => hc hh.2)]
  · rw [if_neg ht, if_neg (fun hh => ht hh.1)]
    rfl

/-- The merged effect, field by field: each XP field is the fragment sum
when seen and non-zero, and the inventory record sends each item to its
summed delta when touched and non-zero. -/
lemma merge_char (l : List (Option TaskCompletionEffect)) :
    effTavXp (mergeCompletionEffects l) =
      (if sawTav l = true ∧ (tavContribs l).sum ≠ 0 then
        some ((tavContribs l).sum) else none) ∧
    effSkillXp (mergeCompletionEffects l) =
      (if sawSkill l = true ∧ (skillContribs l).sum ≠ 0 then
        some ((skillContribs l).sum) else none) ∧
    ∀ k, effInvLookup (mergeCompletionEffects l) k =
      (if invTouched (invUpdates l) k = true ∧
          invContribTotal (invUpdates l) k ≠ 0 then
        some (invContribTotal (invUpdates l) k)
      else none) := by
  rw [mergeCompletionEffects_eq]
  dsimp only
  refine ⟨(assembled_char _ _ _).1, (assembled_char _ _ _).2.1, fun k => ?_⟩
  rw [(assembled_char _ _ _).2.2 k]
  by_cases hsi : sawInv l = true
  · rw [if_pos hsi]
    by_cases hcl : 0 < (((invUpdates l).foldl applyInvUpdate
        ([] : List (String × Int))).filter (fun p => p.2 != 0)).length
    · rw [if_pos hcl]
      exact lookup_cleaned l k
    · rw [if_neg hcl]
      have hnil : (((invUpdates l).foldl applyInvUpdate
          ([] : List (String × Int))).filter (fun p => p.2 != 0)) = [] :=
        List.eq_nil_of_length_eq_zero (by omega)
      have hlc := lookup_cleaned l k
      rw [hnil] at hlc
      exact hlc
  · rw [if_neg hsi]
    have hsf : sawInv l = false := by
      cases hb : sawInv l
      · rfl
      · exact absurd hb hsi
    rw [invUpdates_of_not_saw l hsf, if_neg (by simp [invTouched])]
    rfl

/-! #### Merge algebra -/

lemma invContribTotal_append (u v : List (String × Int)) (k : String) :
    invContribTotal (u ++ v) k =
      invContribTotal u k + invContribTotal v k := by
  rw [invContribTotal, invContribTotal, invContribTotal, List.filter_append,
    List.map_append, List.sum_append]

lemma perm_flatten {α : Type} {xs ys : List (List α)} (h : xs.Perm ys) :
    xs.flatten.Perm ys.flatten := by
  induction h with
  | nil => exact List.Perm.refl _
  | cons x h ih =>
      rw [List.flatten_cons, List.flatten_cons]
      exact ih.append_left x
  | swap x y l =>
      rw [List.flatten_cons, List.flatten_cons, List.flatten_cons,
        List.flatten_cons, ← List.append_assoc, ← List.append_assoc]
      exact (List.perm_append_comm).append_right _
  | trans h1 h2 ih1 ih2 => exact ih1.trans ih2

lemma merge_perm {l l' : List (Option TaskCompletionEffect)}
    (hp : l.Perm l') :
    EffectEquiv (mergeCompletionEffects l) (mergeCompletionEffects l') := by
  obtain ⟨hT, hS, hV⟩ := merge_char l
  obtain ⟨hT2, hS2, hV2⟩ := merge_char l'
  have hup : (invUpdates l).Perm (invUpdates l') := by
    unfold invUpdates
    exact perm_flatten (hp.filterMap _)
  refine ⟨?_, ?_, fun k => ?_⟩
  · rw [hT, hT2]
    have hsw : sawTav l = sawTav l' := by
      unfold sawTav
      exact any_perm hp _
    have hsum : (tavContribs l).sum = (tavContribs l').sum := by
      unfold tavContribs
      exact (hp.filterMap _).sum_eq
    rw [hsw, hsum]
  · rw [hS, hS2]
    have hsw : sawSkill l = sawSkill l' := by
      unfold sawSkill
      exact any_perm hp _
    have hsum : (skillContribs l).sum = (skillContribs l').sum := by
      unfold skillContribs
      exact (hp.filterMap _).sum_eq
    rw [hsw, hsum]
  · rw [hV k, hV2 k]
    have ht : invTouched (invUpdates l) k = invTouched (invUpdates l') k := by
      unfold invTouched
      exact any_perm hup _
    have hc : invContribTotal (invUpdates l) k =
        invContribTotal (invUpdates l') k := by
      unfold invContribTotal
      exact ((hup.filter _).map _).sum_eq
    rw [ht, hc]

/-- The shared drop-zero condition arithmetic for one field of the
absorption law. -/
lemma absorb_field (saw1 saw2 : Bool) (s1 s2 : Int)
    (h1 : saw1 = false → s1 = 0) (h2 : saw2 = false → s2 = 0) :
    (if (((if saw1 = true ∧ s1 ≠ 0 then some s1 else none).isSome || saw2)
          = true ∧ s1 + s2 ≠ 0) then
      some (s1 + s2) else none) =
    (if (saw1 || saw2) = true ∧ s1 + s2 ≠ 0 then some (s1 + s2)
     else none) := by
  refine if_congr (Iff.intro ?_ ?_) rfl rfl
  · rintro ⟨hsw, hs⟩
    refine ⟨?_, hs⟩
    cases hb2 : saw2
    · cases hb1 : saw1
      · exfalso
        rw [hb2, hb1] at hsw
        rw [if_neg (by simp)] at hsw
        simp at hsw
      · simp
    · simp [Bool.or_true]
  · rintro ⟨hsw, hs⟩
    refine ⟨?_, hs⟩
    cases hb2 : saw2
    · have hs2 : s2 = 0 := h2 hb2
      have hs1 : s1 ≠ 0 := by omega
      have hb1 : saw1 = true := by
        cases hb : saw1
        · exact absurd (h1 hb) hs1
        · rfl
      rw [if_pos ⟨hb1, hs1⟩]
      simp
    · simp [Bool.or_true]

lemma contribs_cons_sum_tav (x : Option TaskCompletionEffect)
    (l2 : List (Option TaskCompletionEffect)) :
    (tavContribs (x :: l2)).sum = (effTavXp x).getD 0 + (tavContribs l2).sum := by
  unfold tavContribs effTavXp
  cases hx : x.bind (fun e => e.tavXp) with
  | none =>
      simp only [List.filterMap_cons, hx, Option.getD_none, zero_add]
  | some v =>
      simp only [List.filterMap_cons, hx, List.sum_cons, Option.getD_some]

lemma contribs_cons_sum_skill (x : Option TaskCompletionEffect)
    (l2 : List (Option TaskCompletionEffect)) :
    (skillContribs (x :: l2)).sum =
      (effSkillXp x).getD 0 + (skillContribs l2).sum := by
  unfold skillContribs effSkillXp
  cases hx : x.bind (fun e => e.skillXp) with
  | none =>
      simp only [List.filterMap_cons, hx, Option.getD_none, zero_add]
  | some v =>
      simp only [List.filterMap_cons, hx, List.sum_cons, Option.getD_some]

lemma saw_cons_tav (x : Option TaskCompletionEffect)
    (l2 : List (Option TaskCompletionEffect)) :
    sawTav (x :: l2) = ((effTavXp x).isSome || sawTav l2) := by
  unfold sawTav effTavXp
  rw [List.any_cons]

lemma saw_cons_skill (x : Option TaskCompletionEffect)
    (l2 : List (Option TaskCompletionEffect)) :
    sawSkill (x :: l2) = ((effSkillXp x).isSome || sawSkill l2) := by
  unfold sawSkill effSkillXp
  rw [List.any_cons]

lemma invUpdates_cons (x : Option TaskCompletionEffect)
    (l2 : List (Option TaskCompletionEffect)) :
    invUpdates (x :: l2) =
      (x.bind (fun e => e.inventory)).getD [] ++ invUpdates l2 := by
  unfold invUpdates
  cases hx : x.bind (fun e => e.inventory) with
  | none =>
      simp only [List.filterMap_cons, hx, Option.getD_none, List.nil_append]
  | some cl =>
      simp only [List.filterMap_cons, hx, List.flatten_cons, Option.getD_some]

lemma contrib_eq_lookup_of_clean :
    ∀ (us : List (String × Int)), (keysOf us).Nodup →
      (∀ p ∈ us, p.2 ≠ 0) → ∀ k : String,
      invContribTotal us k = (lookupRec us k).getD 0 ∧
      invTouched us k = (lookupRec us k).isSome := by
  intro us
  induction us with
  | nil => intro hnd hnz k; exact ⟨rfl, rfl⟩
  | cons p rest ih =>
      intro hnd hnz k
      rcases p with ⟨pk, pv⟩
      simp only [keysOf, List.map_cons, List.nodup_cons] at hnd
      have hpv : pv ≠ 0 := hnz (pk, pv) (List.mem_cons_self _ _)
      by_cases hk : (pk == k) = true
      · have hke : pk = k := by simpa using hk
        have htk : touchKey k (pk, pv) = true := by simp [touchKey, hk, hpv]
        have hkn : k ∉ keysOf rest := by rw [← hke]; exact hnd.1
        have hrest := inv_untouched_of_not_mem rest k hkn
        constructor
        · rw [show invContribTotal ((pk, pv) :: rest) k =
              pv + invContribTotal rest k from by
            simp [invContribTotal, List.filter_cons, htk]]
          rw [hrest.1, lookupRec_cons, if_pos hk]
          simp
        · rw [show invTouched ((pk, pv) :: rest) k = true from by
            simp [invTouched, htk]]
          rw [lookupRec_cons, if_pos hk]
          rfl
      · have htk : touchKey k (pk, pv) = false := by simp [touchKey, hk]
        have h1 : invContribTotal ((pk, pv) :: rest) k =
            invContribTotal rest k := by
          simp [invContribTotal, List.filter_cons, htk]
        have h2 : invTouched ((pk, pv) :: rest) k = invTouched rest k := by
          simp [invTouched, htk]
        rw [h1, h2, lookupRec_cons, if_neg hk]
        exact ih hnd.2 (fun q hq => hnz q (List.mem_cons_of_mem _ hq)) k

lemma assembled_inventory (T S : Option Int)
    (V : Option (List (String × Int))) (cl : List (String × Int)) :
    ((if T ≠ none ∨ S ≠ none ∨ V ≠ none then
        some (TaskCompletionEffect.mk T S V) else none).bind
      (fun e => e.inventory)) = some cl → V = some cl := by
  by_cases h : T ≠ none ∨ S ≠ none ∨ V ≠ none
  · rw [if_pos h]
    exact fun hh => hh
  · rw [if_neg h]
    intro hh
    exact absurd hh (by simp)

/-- An inventory record emitted by a merge has unique keys and only
non-zero entries. -/
lemma merge_inventory_clean (l : List (Option TaskCompletionEffect))
    (cl : List (String × Int))
    (h : (mergeCompletionEffects l).bind (fun e => e.inventory) = some cl) :
    (keysOf cl).Nodup ∧ ∀ p ∈ cl, p.2 ≠ 0 := by
  rw [mergeCompletionEffects_eq] at h
  dsimp only at h
  have hV := assembled_inventory _ _ _ cl h
  split at hV
  · split at hV
    · have hcl : cl = ((invUpdates l).foldl applyInvUpdate
          ([] : List (String × Int))).filter (fun p => p.2 != 0) := by
        injection hV with h2
        exact h2.symm
      subst hcl
      constructor
      · exact List.Sublist.nodup
          ((List.filter_sublist _).map Prod.fst)
          (foldl_applyInvUpdate_nodup _ _ (by simp [keysOf]))
      · intro p hp
        have hp2 := (List.mem_filter.mp hp).2
        simpa using hp2
    · exact absurd hV (by simp)
  · exact absurd hV (by simp)

/-- Merging a merged prefix with further fragments is equivalent to merging
the flat list. -/
lemma merge_absorb (l1 l2 : List (Option TaskCompletionEffect)) :
    EffectEquiv
      (mergeCompletionEffects (mergeCompletionEffects l1 :: l2))
      (mergeCompletionEffects (l1 ++ l2)) := by
  obtain ⟨hT1, hS1, hV1⟩ := merge_char l1
  obtain ⟨hTm, hSm, hVm⟩ := merge_char (mergeCompletionEffects l1 :: l2)
  obtain ⟨hTa, hSa, hVa⟩ := merge_char (l1 ++ l2)
  refine ⟨?_, ?_, fun k => ?_⟩
  · have hgd : (effTavXp (mergeCompletionEffects l1)).getD 0 =
        (tavContribs l1).sum := by
      rw [hT1]
      by_cases hc : sawTav l1 = true ∧ (tavContribs l1).sum ≠ 0
      · rw [if_pos hc]
        rfl
      · rw [if_neg hc]
        rcases not_and_or.mp hc with h | h
        · have hsf : sawTav l1 = false := by
            cases hb : sawTav l1
            · rfl
            · exact absurd hb h
          rw [Option.getD_none, sum_tavContribs_of_not_saw l1 hsf]
        · rw [Option.getD_none]
          omega
    rw [hTm, hTa, contribs_cons_sum_tav, saw_cons_tav, hgd, hT1,
      show sawTav (l1 ++ l2) = (sawTav l1 || sawTav l2) from by
        unfold sawTav
        rw [List.any_append],
      show (tavContribs (l1 ++ l2)).sum =
          (tavContribs l1).sum + (tavContribs l2).sum from by
        unfold tavContribs
        rw [List.filterMap_append, List.sum_append]]
    exact absorb_field _ _ _ _ (sum_tavContribs_of_not_saw l1)
      (sum_tavContribs_of_not_saw l2)
  · have hgd : (effSkillXp (mergeCompletionEffects l1)).getD 0 =
        (skillContribs l1).sum := by
      rw [hS1]
      by_cases hc : sawSkill l1 = true ∧ (skillContribs l1).sum ≠ 0
      · rw [if_pos hc]
        rfl
      · rw [if_neg hc]
        rcases not_and_or.mp hc with h | h
        · have hsf : sawSkill l1 = false := by
            cases hb : sawSkill l1
            · rfl
            · exact absurd hb h
          rw [Option.getD_none, sum_skillContribs_of_not_saw l1 hsf]
        · rw [Option.getD_none]
          omega
    rw [hSm, hSa, contribs_cons_sum_skill, saw_cons_skill, hgd, hS1,
      show sawSkill (l1 ++ l2) = (sawSkill l1 || sawSkill l2) from by
        unfold sawSkill
        rw [List.any_append],
      show (skillContribs (l1 ++ l2)).sum =
          (skillContribs l1).sum + (skillContribs l2).sum from by
        unfold skillContribs
        rw [List.filterMap_append, List.sum_append]]
    exact absorb_field _ _ _ _ (sum_skillContribs_of_not_saw l1)
      (sum_skillContribs_of_not_saw l2)
  · have htapp : ∀ u v : List (String × Int),
        invTouched (u ++ v) k = (invTouched u k || invTouched v k) := by
      intro u v
      unfold invTouched
      rw [List.any_append]
    rw [hVm k, hVa k, invUpdates_cons,
      show invUpdates (l1 ++ l2) = invUpdates l1 ++ invUpdates l2 from by
        unfold invUpdates
        rw [List.filterMap_append, List.flatten_append]]
    simp only [htapp, invContribTotal_append]
    cases hcase : (mergeCompletionEffects l1).bind (fun e => e.inventory) with
    | none =>
        have heff : effInvLookup (mergeCompletionEffects l1) k = none := by
          unfold effInvLookup
          rw [hcase]
          rfl
        have hnone : (if invTouched (invUpdates l1) k = true ∧
            invContribTotal (invUpdates l1) k ≠ 0 then
              some (invContribTotal (invUpdates l1) k) else none) = none := by
          rw [← hV1 k]
          exact heff
        have hc10 : invContribTotal (invUpdates l1) k = 0 := by
          by_cases hcnd : invTouched (invUpdates l1) k = true ∧
              invContribTotal (invUpdates l1) k ≠ 0
          · rw [if_pos hcnd] at hnone
            exact absurd hnone (by simp)
          · rcases not_and_or.mp hcnd with h | h
            · refine contrib_zero_of_untouched _ _ ?_
              cases hb : invTouched (invUpdates l1) k
              · rfl
              · exact absurd hb h
            · omega
        simp only [Option.getD_none]
        rw [show invTouched ([] : List (String × Int)) k =
            (if invTouched (invUpdates l1) k = true ∧
              invContribTotal (invUpdates l1) k ≠ 0 then
                some (invContribTotal (invUpdates l1) k) else none).isSome
            from by rw [hnone]; rfl,
          show invContribTotal ([] : List (String × Int)) k =
            invContribTotal (invUpdates l1) k from by rw [hc10]; rfl]
        exact absorb_field _ _ _ _
          (fun h => contrib_zero_of_untouched _ _ h)
          (fun h => contrib_zero_of_untouched _ _ h)
    | some cl =>
        have hclean := merge_inventory_clean l1 cl hcase
        have hlk : lookupRec cl k =
            (if invTouched (invUpdates l1) k = true ∧
              invContribTotal (invUpdates l1) k ≠ 0 then
                some (invContribTotal (invUpdates l1) k) else none) := by
          have h := hV1 k
          unfold effInvLookup at h
          rw [hcase] at h
          exact h
        have hcl := contrib_eq_lookup_of_clean cl hclean.1 hclean.2 k
        have hHC : invContribTotal cl k =
            invContribTotal (invUpdates l1) k := by
          rw [hcl.1, hlk]
          by_cases hcnd : invTouched (invUpdates l1) k = true ∧
              invContribTotal (invUpdates l1) k ≠ 0
          · rw [if_pos hcnd]
            rfl
          · rw [if_neg hcnd]
            rcases not_and_or.mp hcnd with h | h
            · have hfa : invTouched (invUpdates l1) k = false := by
                cases hb : invTouched (invUpdates l1) k
                · rfl
                · exact absurd hb h
              rw [contrib_zero_of_untouched _ _ hfa]
              rfl
            · have hz : invContribTotal (invUpdates l1) k = 0 := by omega
              rw [hz]
              rfl
        have hHT : invTouched cl k =
            (if invTouched (invUpdates l1) k = true ∧
              invContribTotal (invUpdates l1) k ≠ 0 then
                some (invContribTotal (invUpdates l1) k) else none).isSome := by
          rw [hcl.2, hlk]
        simp only [Option.getD_some]
        rw [hHT, hHC]
        exact absorb_field _ _ _ _
          (fun h => contrib_zero_of_untouched _ _ h)
          (fun h => contrib_zero_of_untouched _ _ h)

lemma assembled_some (T S : Option Int) (V : Option (List (String × Int)))
    (e : TaskCompletionEffect) :
    (if T ≠ none ∨ S ≠ none ∨ V ≠ none then
        some (TaskCompletionEffect.mk T S V) else none) = some e →
      e = TaskCompletionEffect.mk T S V ∧
        (T ≠ none ∨ S ≠ none ∨ V ≠ none) := by
  by_cases h : T ≠ none ∨ S ≠ none ∨ V ≠ none
  · rw [if_pos h]
    intro hh
    injection hh with hh
    exact ⟨hh.symm, h⟩
  · rw [if_neg h]
    intro hh
    exact absurd hh (by simp)

/-- A non-null merge result never carries a zero XP field, never carries a
zero inventory entry, and has at least one field. -/
lemma merge_some_fields (l : List (Option TaskCompletionEffect))
    (e : TaskCompletionEffect) (h : mergeCompletionEffects l = some e) :
    e.tavXp ≠ some 0 ∧ e.skillXp ≠ some 0 ∧
      (∀ inv, e.inventory = some inv → ∀ p ∈ inv, p.2 ≠ 0) ∧
      (e.tavXp ≠ none ∨ e.skillXp ≠ none ∨ e.inventory ≠ none) := by
  rw [mergeCompletionEffects_eq] at h
  dsimp only at h
  obtain ⟨he, hcond⟩ := assembled_some _ _ _ e h
  subst he
  dsimp only
  refine ⟨?_, ?_, ?_, hcond⟩
  · by_cases hc : sawTav l = true ∧ (tavContribs l).sum ≠ 0
    · rw [if_pos hc]
      simp only [ne_eq, Option.some.injEq]
      exact hc.2
    · rw [if_neg hc]
      simp
  · by_cases hc : sawSkill l = true ∧ (skillContribs l).sum ≠ 0
    · rw [if_pos hc]
      simp only [ne_eq, Option.some.injEq]
      exact hc.2
    · rw [if_neg hc]
      simp
  · intro inv hinv
    by_cases hsi : sawInv l = true
    · rw [if_pos hsi] at hinv
      by_cases hlen : 0 < (((invUpdates l).foldl applyInvUpdate
          ([] : List (String × Int))).filter (fun p => p.2 != 0)).length
      · rw [if_pos hlen] at hinv
        injection hinv with hinv
        subst hinv
        intro p hp
        have hp2 := (List.mem_filter.mp hp).2
        simpa using hp2
      · rw [if_neg hlen] at hinv
        exact absurd hinv (by simp)
    · rw [if_neg hsi] at hinv
      exact absurd hinv (by simp)

/-- When every field total is zero the merge yields `null`. -/
lemma merge_null_of_zero (l : List (Option TaskCompletionEffect))
    (h1 : (tavContribs l).sum = 0) (h2 : (skillContribs l).sum = 0)
    (h3 : ∀ k, invContribTotal (invUpdates l) k = 0) :
    mergeCompletionEffects l = none := by
  rw [mergeCompletionEffects_eq]
  dsimp only
  rw [h1, h2,
    show (if sawTav l = true ∧ (0 : Int) ≠ 0 then some (0 : Int) else none)
      = none from if_neg (fun hc => hc.2 rfl),
    show (if sawSkill l = true ∧ (0 : Int) ≠ 0 then some (0 : Int) else none)
      = none from if_neg (fun hc => hc.2 rfl)]
  have hcl : (((invUpdates l).foldl applyInvUpdate
      ([] : List (String × Int))).filter (fun p => p.2 != 0)) = [] := by
    rw [List.filter_eq_nil_iff]
    intro p hp
    have hnd := foldl_applyInvUpdate_nodup (invUpdates l)
      ([] : List (String × Int)) (by simp [keysOf])
    have hlk := lookupRec_of_mem_nodup _ hnd p hp
    rw [lookup_foldl_applyInvUpdate] at hlk
    by_cases ht : ((lookupRec ([] : List (String × Int)) p.1).isSome ||
        invTouched (invUpdates l) p.1) = true
    · rw [if_pos ht] at hlk
      have heq := Option.some.inj hlk
      simp only [show lookupRec ([] : List (String × Int)) p.1 = none
          from rfl, Option.getD_none, zero_add] at heq
      have h0 := h3 p.1
      have hp2 : p.2 = 0 := by omega
      simp [hp2]
    · rw [if_neg ht] at hlk
      exact absurd hlk (by simp)
  rw [hcl]
  simp

/-- C7: the completion-effect merge is commutative and associative over the
fragments supplied, up to record equivalence of the merged result: any
permutation of the fragment list merges to an equivalent effect, nested
binary merges reassociate, a non-null result never carries a zero XP total
or a zero inventory entry, and when every total sums to zero the merge
returns `null`. -/
theorem mergeCompletionEffects_algebra :
    (∀ l l' : List (Option TaskCompletionEffect), l.Perm l' →
      EffectEquiv (mergeCompletionEffects l) (mergeCompletionEffects l')) ∧
    (∀ a b c : Option TaskCompletionEffect,
      EffectEquiv
        (mergeCompletionEffects [mergeCompletionEffects [a, b], c])
        (mergeCompletionEffects [a, mergeCompletionEffects [b, c]])) ∧
    (∀ l e, mergeCompletionEffects l = some e →
      e.tavXp ≠ some 0 ∧ e.skillXp ≠ some 0 ∧
        (∀ inv, e.inventory = some inv → ∀ p ∈ inv, p.2 ≠ 0) ∧
        (e.tavXp ≠ none ∨ e.skillXp ≠ none ∨ e.inventory ≠ none)) ∧
    (∀ l, (tavContribs l).sum = 0 → (skillContribs l).sum = 0 →
      (∀ k, invContribTotal (invUpdates l) k = 0) →
      mergeCompletionEffects l = none) := by
  refine ⟨fun l l' hp => merge_perm hp, ?_, merge_some_fields,
    merge_null_of_zero⟩
  intro a b c
  have h1 := merge_absorb [a, b] [c]
  have h2 := merge_absorb [b, c] [a]
  have h3 := merge_perm (List.Perm.swap (mergeCompletionEffects [b, c]) a
    ([] : List (Option TaskCompletionEffect)))
  have h4 := merge_perm
    (show ([b, c, a] : List (Option TaskCompletionEffect)).Perm [a, b, c]
      from ((List.Perm.swap b a [c]).trans
        ((List.Perm.swap c a []).cons b)).symm)
  exact effectEquiv_trans h1
    (effectEquiv_symm (effectEquiv_trans h3 (effectEquiv_trans h2 h4)))

/-- C7 witness: two fragments whose tav XP sums to zero (and with no other
field) merge to `null`. -/
theorem mergeCompletionEffects_algebra_witness :
    mergeCompletionEffects
      [some (TaskCompletionEffect.mk (some 2) none none),
        some (TaskCompletionEffect.mk (some (-2)) none none)] = none :=
  mergeCompletionEffects_algebra.2.2.2 _ (by decide) (by decide)
    (fun k => rfl)

/-! ### C10: the `options` default of `applyInventoryDelta`

The repository also carries the revision of `src/lib/inventory.ts` whose
signature reads `options: ApplyDeltaOptions = {}` (the one exercised by the
named test file, which calls `applyInventoryDelta` without options and
expects a silent no-op on underflow).  It differs from the revision above:
the stack-limit fallback is `Number.MAX_SAFE_INTEGER`, the strict pre-check
only updates totals for negative entries, new stacks are allocated at
`++maxSlot`, and a final pass sorts the surviving rows and reindexes their
slots to `0..n-1`. -/

/-- `Number.MAX_SAFE_INTEGER`. -/
def MAX_SAFE_INTEGER : Int := 2 ^ 53 - 1

/-- The `for (const row of existing)` prologue: group rows into the per-item
stack map (ascending slot order preserved) while tracking the largest slot
seen (`maxSlot`, initially `-1`). -/
def buildStacksMax (rows : List InventoryRow) :
    List (String × List (Nat × Int)) × Int :=
  rows.foldl
    (fun acc r =>
      (setRec acc.1 r.itemId
        ((lookupRec acc.1 r.itemId).getD [] ++ [(r.slot, r.qty)]),
        if (r.slot : Int) > acc.2 then (r.slot : Int) else acc.2))
    ([], -1)

/-- The strict pre-check of this revision: only negative entries are
examined (and only they update the running totals). -/
def strictCheckLoopNeg (totals : List (String × Int)) :
    List (String × Int) → Except String Unit
  | [] => Except.ok ()
  | (itemId, change) :: rest =>
      if change < 0 then
        let available := (lookupRec totals itemId).getD 0
        if available + change < 0 then
          Except.error ("Insufficient quantity for item " ++ itemId)
        else
          strictCheckLoopNeg (setRec totals itemId (available + change)) rest
      else strictCheckLoopNeg totals rest

/-- The `while (remaining > 0)` loop of this revision: new stacks are
created at `++maxSlot`, ignoring holes in the slot sequence (the totality
guard mirrors `createNewStacks` above). -/
def createNewStacksSeq (stackLimit : Int) (maxSlot : Int)
    (remaining : Int) : List (Nat × Int) × Int :=
  if h : 0 < remaining ∧ 0 < stackLimit then
    let chunk := min stackLimit remaining
    let slot := maxSlot + 1
    let r := createNewStacksSeq stackLimit slot (remaining - chunk)
    ((slot.toNat, chunk) :: r.1, r.2)
  else ([], maxSlot)
termination_by remaining.toNat
decreasing_by
  have h1 : 0 < min stackLimit remaining := by omega
  omega

/-- One iteration of this revision's entry loop, over the stack map and the
running `maxSlot`. -/
def applyEntryReindex (items : List ItemDefinition) (strict : Bool)
    (st : List (String × List (Nat × Int)) × Int) (e : String × Int) :
    Except String (List (String × List (Nat × Int)) × Int) :=
  (requireItemDefinition items e.1).bind (fun definition =>
    let stackLimit := definition.stackLimit.getD MAX_SAFE_INTEGER
    let change := e.2
    if change == 0 then Except.ok st
    else if change > 0 then
      let stackList := (lookupRec st.1 e.1).getD []
      let t := topUpStacks stackLimit stackList change
      let c := createNewStacksSeq stackLimit st.2 t.2
      Except.ok (setRec st.1 e.1 (t.1 ++ c.1), c.2)
    else
      let stackList := (lookupRec st.1 e.1).getD []
      let d := drainStacks (-change) stackList
      if d.2.1 > 0 ∧ strict then
        Except.error ("Insufficient quantity for item " ++ e.1)
      else Except.ok (setRec st.1 e.1 d.1, st.2))

/-- This revision's entry loop. -/
def applyEntriesReindex (items : List ItemDefinition) (strict : Bool)
    (st : List (String × List (Nat × Int)) × Int) :
    List (String × Int) →
    Except String (List (String × List (Nat × Int)) × Int)
  | [] => Except.ok st
  | e :: rest =>
      (applyEntryReindex items strict st e).bind
        (fun st2 => applyEntriesReindex items strict st2 rest)

/-- The final reindexing pass: the surviving rows, in ascending slot order,
are renumbered `0, 1, 2, …`. -/
def reindexRows : List InventoryRow → Nat → List InventoryRow
  | [], _ => []
  | r :: rest, i => { r with slot := i } :: reindexRows rest (i + 1)

/-- `applyInventoryDelta` of the `options: ApplyDeltaOptions = {}` revision:
an omitted `options` argument is the empty object, whose `strict` field is
absent and therefore falsy.  After the entry loop the inventory is
sanitized (`qty > 0`), sorted by slot, and reindexed to consecutive
slots. -/
def applyInventoryDeltaReindex (items : List ItemDefinition)
    (rows : List InventoryRow) (deltas : List (String × Int))
    (options : Option ApplyDeltaOptions) : Except String (List InventoryRow) :=
  let opts := options.getD { strict := none }
  let strict := opts.strict.getD false
  let entries := deltas.filter (fun p => p.2 != 0)
  if entries.isEmpty then Except.ok rows
  else
    let existing := sortRowsBySlot rows
    let sm := buildStacksMax existing
    let pre : Except String Unit :=
      if strict then strictCheckLoopNeg (totalsFromStacks sm.1) entries
      else Except.ok ()
    pre.bind (fun _ =>
      (applyEntriesReindex items strict sm entries).map (fun st =>
        reindexRows ((rowsOfStacks st.1).filter (fun r => r.qty > 0)) 0))

/-- C10 (counterexample, evaluated): in the revision whose parameter default
is the empty object — the one the named inventory tests exercise — an
omitted `options` argument does NOT enforce strict underflow checking:
removing a plank from an inventory holding only logs succeeds silently and
leaves the row set unchanged, while the same call with `{ strict: true }`
throws.  Omitting the argument is therefore not identical to passing
`{ strict: true }`. -/
theorem applyInventoryDeltaReindex_omitted_not_strict :
    applyInventoryDeltaReindex [logItemDef, plankItemDef]
        [InventoryRow.mk 0 "log" 2] [("plank", -1)] none =
      Except.ok [InventoryRow.mk 0 "log" 2] ∧
    getInventoryTotals [InventoryRow.mk 0 "log" 2] "log" = 2 ∧
    (∃ msg, applyInventoryDeltaReindex [logItemDef, plankItemDef]
        [InventoryRow.mk 0 "log" 2] [("plank", -1)]
        (some { strict := some true }) = Except.error msg) :=
  ⟨rfl, by decide, ⟨"Insufficient quantity for item plank", rfl⟩⟩

/-- C10 (amended): in the current revision the parameter default is the
empty object, so an omitted `options` argument is identical to an
explicitly supplied empty object (and to `{ strict: false }`): all of them
leave the underflow check disabled; only an explicit `{ strict: true }`
enables it. -/
theorem applyInventoryDeltaReindex_default_empty
    (items : List ItemDefinition) (rows : List InventoryRow)
    (deltas : List (String × Int)) :
    applyInventoryDeltaReindex items rows deltas none =
      applyInventoryDeltaReindex items rows deltas
        (some { strict := none }) ∧
    applyInventoryDeltaReindex items rows deltas none =
      applyInventoryDeltaReindex items rows deltas
        (some { strict := some false }) :=
  ⟨rfl, rfl⟩

end Tav
